import Mathlib

/-!
go-bigq: the lint core (`internal/lint/linter.go`) and the catalog builder
(`internal/catalog/builder.go`).

A Go `string` is a sequence of bytes; it is embedded as `List Nat`, one
number per byte.  The byte constants used by the source are

  '\t' = 9, '\n' = 10, '\r' = 13, ' ' = 32, '"' = 34, '\'' = 39, '*' = 42,
  '-' = 45, '.' = 46, '/' = 47, ':' = 58, ';' = 59, '\\' = 92, '`' = 96.
-/

namespace Lint

/-- Bytes of a string literal (UTF-8; one byte per character for ASCII text). -/
def utf8Char (c : Char) : List Nat :=
  let n := c.toNat
  if n < 0x80 then [n]
  else if n < 0x800 then [0xC0 + n / 64, 0x80 + n % 64]
  else if n < 0x10000 then [0xE0 + n / 4096, 0x80 + n / 64 % 64, 0x80 + n % 64]
  else [0xF0 + n / 262144, 0x80 + n / 4096 % 64, 0x80 + n / 64 % 64, 0x80 + n % 64]

/-- Bytes of a string literal. -/
def bytes (s : String) : List Nat :=
  s.toList.flatMap utf8Char

/-! ## Library functions used by the source (`strings` package) -/

/-- One-byte white space of `unicode.IsSpace`: `\t \n \v \f \r` and space. -/
def isSpace1 (a : Nat) : Bool :=
  a = 9 || a = 10 || a = 11 || a = 12 || a = 13 || a = 32

/-- Two-byte encodings of white space: U+0085 and U+00A0. -/
def isSpace2 (a b : Nat) : Bool :=
  a = 0xC2 && (b = 0x85 || b = 0xA0)

/-- Three-byte encodings of white space: U+1680, U+2000..U+200A, U+2028,
U+2029, U+202F, U+205F and U+3000. -/
def isSpace3 (a b c : Nat) : Bool :=
  (a = 0xE1 && b = 0x9A && c = 0x80) ||
  (a = 0xE2 && b = 0x80 && ((0x80 ≤ c && c ≤ 0x8A) || c = 0xA8 || c = 0xA9 || c = 0xAF)) ||
  (a = 0xE2 && b = 0x81 && c = 0x9F) ||
  (a = 0xE3 && b = 0x80 && c = 0x80)

/-- Removal of leading white space (`strings.TrimLeftFunc(s, unicode.IsSpace)`):
while the text starts with the encoding of a white-space code point, that
encoding is removed. -/
def TrimLeft : List Nat → List Nat
  | [] => []
  | a :: r =>
    if isSpace1 a then TrimLeft r
    else
      match r with
      | [] => [a]
      | b :: r2 =>
        if isSpace2 a b then TrimLeft r2
        else
          match r2 with
          | [] => [a, b]
          | c :: r3 => if isSpace3 a b c then TrimLeft r3 else a :: b :: c :: r3

/-- Removal of leading white space of a reversed text: the encodings are read
back to front. -/
def TrimLeftRev : List Nat → List Nat
  | [] => []
  | a :: r =>
    if isSpace1 a then TrimLeftRev r
    else
      match r with
      | [] => [a]
      | b :: r2 =>
        if isSpace2 b a then TrimLeftRev r2
        else
          match r2 with
          | [] => [a, b]
          | c :: r3 => if isSpace3 c b a then TrimLeftRev r3 else a :: b :: c :: r3

/-- Removal of trailing white space (`strings.TrimRightFunc(s, unicode.IsSpace)`). -/
def TrimRight (s : List Nat) : List Nat :=
  (TrimLeftRev s.reverse).reverse

/-- The library function `strings.TrimSpace`: leading and trailing white space, as
defined by Unicode, removed. -/
def TrimSpace (s : List Nat) : List Nat :=
  TrimRight (TrimLeft s)

/-- The library function `strings.HasPrefix`. -/
def HasPrefix (s p : List Nat) : Bool :=
  s.take p.length == p

/-- The library function `strings.ToUpper` on ASCII text: the bytes `a`..`z` become
`A`..`Z`, every other byte is kept. -/
def asciiToUpper (s : List Nat) : List Nat :=
  s.map fun c => if 97 ≤ c ∧ c ≤ 122 then c - 32 else c

/-- The Go slice expression `s[lo:hi]`. -/
def slice (s : List Nat) (lo hi : Nat) : List Nat :=
  (s.drop lo).take (hi - lo)

/-! ## `splitStatements` -/

/-- The source's `stmtSpan`. -/
structure stmtSpan where
  text : List Nat
  startLine : Nat
deriving DecidableEq, Repr

/-- The local variables of `splitStatements`. -/
structure ScanState where
  spans : List stmtSpan
  line : Nat
  start : Nat
  startLine : Nat
  inSingleQuote : Bool
  inDoubleQuote : Bool
  inBacktick : Bool
  inLineComment : Bool
  inBlockComment : Bool
deriving DecidableEq, Repr

/-- The values of the local variables before the loop. -/
def ScanState.init : ScanState :=
  { spans := [], line := 1, start := 0, startLine := 1,
    inSingleQuote := false, inDoubleQuote := false, inBacktick := false,
    inLineComment := false, inBlockComment := false }

/-- One pass through the body of the loop of `splitStatements` at index `i`, where
`c = sql[i]` and `next` is `sql[i+1]` when `i+1 < len(sql)`.  The result is the
new values of the variables, and whether the body incremented `i` itself
(`i++` inside the body, on top of the increment of the `for` clause). -/
def loopBody (sql : List Nat) (i c : Nat) (next : Option Nat) (st : ScanState) :
    ScanState × Bool :=
  if c = 10 then
    ({ st with line := st.line + 1, inLineComment := false }, false)
  else if st.inLineComment then (st, false)
  else if st.inBlockComment then
    if c = 42 ∧ next = some 47 then ({ st with inBlockComment := false }, true)
    else (st, false)
  else if st.inSingleQuote then
    if c = 39 then ({ st with inSingleQuote := false }, false)
    else if c = 92 then (st, true)
    else (st, false)
  else if st.inDoubleQuote then
    if c = 34 then ({ st with inDoubleQuote := false }, false)
    else if c = 92 then (st, true)
    else (st, false)
  else if st.inBacktick then
    if c = 96 then ({ st with inBacktick := false }, false)
    else (st, false)
  else if c = 39 then ({ st with inSingleQuote := true }, false)
  else if c = 34 then ({ st with inDoubleQuote := true }, false)
  else if c = 96 then ({ st with inBacktick := true }, false)
  else if c = 45 then
    if next = some 45 then ({ st with inLineComment := true }, true) else (st, false)
  else if c = 47 then
    if next = some 42 then ({ st with inBlockComment := true }, true) else (st, false)
  else if c = 59 then
    ({ st with
        spans := st.spans ++ [{ text := slice sql st.start i, startLine := st.startLine }],
        start := i + 1,
        startLine := st.line }, false)
  else (st, false)

/-- The loop `for i := 0; i < len(sql); i++` of `splitStatements`, from index `i`
on; the second argument is `sql[i:]`, the bytes not yet visited. -/
def scanLoop (sql : List Nat) : List Nat → Nat → ScanState → ScanState
  | [], _, st => st
  | c :: rest, i, st =>
    match loopBody sql i c rest.head? st with
    | (st1, false) => scanLoop sql rest (i + 1) st1
    | (st1, true) =>
      match rest with
      | [] => st1
      | _ :: rest2 => scanLoop sql rest2 (i + 2) st1

/-- The end of `splitStatements`: the text after the last semicolon is one more
span when it is not empty after `strings.TrimSpace`. -/
def finish (sql : List Nat) (st : ScanState) : List stmtSpan :=
  if st.start < sql.length then
    if TrimSpace (sql.drop st.start) ≠ [] then
      st.spans ++ [{ text := sql.drop st.start, startLine := st.startLine }]
    else st.spans
  else st.spans

/-- The source's `splitStatements`. -/
def splitStatements (sql : List Nat) : List stmtSpan :=
  finish sql (scanLoop sql sql 0 ScanState.init)

/-! ## `isScriptingStatement` -/

/-- The source's `scriptingKeywords`. -/
def scriptingKeywords : List (List Nat) :=
  [bytes "DECLARE", bytes "SET", bytes "ASSERT",
   bytes "IF", bytes "ELSEIF", bytes "ELSE", bytes "END"]

/-- The loop `for _, kw := range scriptingKeywords` of `isScriptingStatement`, over
the keywords still to be tried.  The index `upper[len(kw)]` is in bounds where it
is evaluated: `kw` is a prefix of `upper` and their lengths differ. -/
def keywordLoop (upper : List Nat) : List (List Nat) → Bool
  | [] => false
  | kw :: kws =>
    if !HasPrefix upper kw then keywordLoop upper kws
    else if upper.length = kw.length then true
    else
      match upper[kw.length]? with
      | some c =>
        if c = 32 ∨ c = 9 ∨ c = 10 ∨ c = 13 then true else keywordLoop upper kws
      | none => keywordLoop upper kws

/-- The source's `isScriptingStatement`; `ToUpper` is the library function
`strings.ToUpper`. -/
def isScriptingStatement (ToUpper : List Nat → List Nat) (trimmed : List Nat) : Bool :=
  keywordLoop (ToUpper trimmed) scriptingKeywords

/-! ## `Result` -/

/-- The source's `Result`. -/
structure Result where
  File : List Nat
  Line : Int
  Column : Int
  Level : List Nat
  Message : List Nat
deriving DecidableEq, Repr

/-- Decimal digits of a number, most significant first; the first argument bounds
the number of digits. -/
def decDigits : Nat → Nat → List Nat
  | 0, _ => []
  | fuel + 1, n =>
    if n < 10 then [48 + n] else decDigits fuel (n / 10) ++ [48 + n % 10]

/-- The verb `%d` of `fmt.Sprintf` on an `int`: the decimal digits, after a minus
sign for a negative number. -/
def fmtInt : Int → List Nat
  | Int.ofNat n => decDigits (n + 1) n
  | Int.negSucc n => 45 :: decDigits (n + 2) (n + 1)

/-- The source's `Result.String`. -/
def Result.String (r : Result) : List Nat :=
  if r.File ≠ [] ∧ r.Line > 0 then
    r.File ++ bytes ":" ++ fmtInt r.Line ++ bytes ":" ++ fmtInt r.Column ++ bytes ": "
      ++ r.Level ++ bytes ": " ++ r.Message
  else if r.File ≠ [] then
    r.File ++ bytes ": " ++ r.Level ++ bytes ": " ++ r.Message
  else
    r.Level ++ bytes ": " ++ r.Message

/-! ## `LintSQL` -/

/-- The functions `LintSQL` calls outside the package: `strings.ToUpper`,
`bigq.ParseScript` and `bigq.AnalyzeStatement`.  An `error` is its text
(`err.Error()`), `none` is `nil`. -/
structure Engine (Cat : Type) where
  ToUpper : List Nat → List Nat
  ParseScript : List Nat → Option (List Nat)
  AnalyzeStatement : List Nat → Cat → Option (List Nat)

/-- The source's `Linter`; `none` is the `nil` catalog. -/
structure Linter (Cat : Type) where
  catalog : Option Cat

/-- What a run of `LintSQL` does: the slice it returns, and the texts it passed to
`bigq.AnalyzeStatement`, in call order. -/
structure Run where
  results : List Result
  analyzed : List (List Nat)
deriving DecidableEq, Repr

/-- The body of the loop `for _, stmt := range splitStatements(sql)` of `LintSQL`. -/
def lintStmt {Cat : Type} (E : Engine Cat) (catalog : Cat) (acc : Run) (stmt : stmtSpan) :
    Run :=
  let trimmed := TrimSpace stmt.text
  if trimmed = [] ∨ trimmed = bytes ";" then acc
  else if isScriptingStatement E.ToUpper trimmed then acc
  else
    match E.AnalyzeStatement trimmed catalog with
    | some err =>
      { results := acc.results ++
          [{ File := [], Line := stmt.startLine, Column := 1, Level := bytes "error",
             Message := err }],
        analyzed := acc.analyzed ++ [trimmed] }
    | none => { acc with analyzed := acc.analyzed ++ [trimmed] }

/-- The source's `LintSQL`, with the calls of the analyzer recorded. -/
def lintRun {Cat : Type} (E : Engine Cat) (l : Linter Cat) (sql : List Nat) : Run :=
  match E.ParseScript sql with
  | some err =>
    { results := [{ File := [], Line := 1, Column := 1, Level := bytes "error",
                    Message := err }],
      analyzed := [] }
  | none =>
    match l.catalog with
    | none => { results := [], analyzed := [] }
    | some catalog =>
      (splitStatements sql).foldl (lintStmt E catalog) { results := [], analyzed := [] }

/-- The source's `LintSQL`. -/
def LintSQL {Cat : Type} (E : Engine Cat) (l : Linter Cat) (sql : List Nat) : List Result :=
  (lintRun E l sql).results

/-- An engine whose `strings.ToUpper` is the one for ASCII text. -/
def asciiEngine {Cat : Type} (parse : List Nat → Option (List Nat))
    (analyze : List Nat → Cat → Option (List Nat)) : Engine Cat :=
  { ToUpper := asciiToUpper, ParseScript := parse, AnalyzeStatement := analyze }

/-! ## What the claims compare the code with -/

/-- The spans C1 describes: the pieces of the input between semicolons, the last
piece kept only when `strings.TrimSpace` leaves something of it. -/
def piecesSpec (sql : List Nat) : List (List Nat) :=
  (sql.splitOn 59).dropLast ++
    (if TrimSpace ((sql.splitOn 59).getLastD []) = [] then []
     else [(sql.splitOn 59).getLastD []])

/-- C5's reading of a scripting statement: the upper-cased text is a keyword
followed by nothing, or by a space, tab, carriage return or line feed. -/
def startsWithKeyword (upper : List Nat) : Prop :=
  ∃ kw ∈ scriptingKeywords, ∃ rest, upper = kw ++ rest ∧
    (rest = [] ∨ ∃ c r, rest = c :: r ∧ (c = 32 ∨ c = 9 ∨ c = 13 ∨ c = 10))

/-- The diagnostic C7 describes for one span, if any. -/
def diagnosticOf {Cat : Type} (E : Engine Cat) (catalog : Cat) (span : stmtSpan) :
    Option Result :=
  if TrimSpace span.text ≠ [] ∧ TrimSpace span.text ≠ bytes ";" ∧
      isScriptingStatement E.ToUpper (TrimSpace span.text) = false then
    (E.AnalyzeStatement (TrimSpace span.text) catalog).map fun msg =>
      { File := [], Line := span.startLine, Column := 1, Level := bytes "error",
        Message := msg }
  else none

/-- The statements C7 describes as analyzed: the trimmed text of every span that is
neither empty, nor ";", nor a scripting statement. -/
def analyzedSpec {Cat : Type} (E : Engine Cat) (spans : List stmtSpan) : List (List Nat) :=
  (spans.map fun span => TrimSpace span.text).filter fun t =>
    t ≠ [] ∧ t ≠ bytes ";" ∧ isScriptingStatement E.ToUpper t = false

/-- No byte of the text is a quote character, and no `-` is followed by `-`, no
`/` by `*`. -/
def noOpeners : List Nat → Prop
  | [] => True
  | c :: rest =>
    c ≠ 39 ∧ c ≠ 34 ∧ c ≠ 96 ∧ (c = 45 → rest.head? ≠ some 45) ∧
      (c = 47 → rest.head? ≠ some 42) ∧ noOpeners rest

/-- Every span followed by the semicolon that ended it, concatenated. -/
def terminated (spans : List stmtSpan) : List Nat :=
  (spans.map fun s => s.text ++ [59]).flatten

/-- The spans concatenated with a semicolon between consecutive spans, none after
the last. -/
def separated (spans : List stmtSpan) : List Nat :=
  [59].intercalate (spans.map stmtSpan.text)

/-- Offsets in the input of the first bytes of the spans: each span is followed by
one semicolon. -/
def startOffsets : List stmtSpan → Nat → List Nat
  | [], _ => []
  | s :: ss, off => off :: startOffsets ss (off + s.text.length + 1)

/-- The start lines C3 describes: 1 plus the number of newlines of the input before
the first byte of each span. -/
def claimedLines (sql : List Nat) : List Nat :=
  (startOffsets (splitStatements sql) 0).map fun off => 1 + (sql.take off).count 10

/-- A text that is empty or white space only: a sequence of encodings of
white-space code points. -/
inductive WhiteSpaceOnly : List Nat → Prop
  | nil : WhiteSpaceOnly []
  | one (a : Nat) (r : List Nat) : isSpace1 a = true → WhiteSpaceOnly r →
      WhiteSpaceOnly (a :: r)
  | two (a b : Nat) (r : List Nat) : isSpace2 a b = true → WhiteSpaceOnly r →
      WhiteSpaceOnly (a :: b :: r)
  | three (a b c : Nat) (r : List Nat) : isSpace3 a b c = true → WhiteSpaceOnly r →
      WhiteSpaceOnly (a :: b :: c :: r)

/-! ## `LintFile` -/

/-- What `LintFile` returns and does: the slice and the error it returns (`none` is
`nil`), and the texts it passed to `LintSQL`, in call order. -/
structure FileRun where
  results : List Result
  err : Option (List Nat)
  linted : List (List Nat)
deriving DecidableEq, Repr

/-- The source's `LintFile`.  `ReadFile` is the library function `os.ReadFile`: the
content of the file, or the text of the error; the error returned is the one
built by `fmt.Errorf("reading %s: %w", path, err)`. -/
def LintFile {Cat : Type} (E : Engine Cat) (ReadFile : List Nat → Except (List Nat) (List Nat))
    (l : Linter Cat) (path : List Nat) : FileRun :=
  match ReadFile path with
  | Except.error err =>
    { results := [], err := some (bytes "reading " ++ path ++ bytes ": " ++ err), linted := [] }
  | Except.ok data =>
    { results := (LintSQL E l data).map fun r => { r with File := path },
      err := none,
      linted := [data] }

/-- A property of the library function `strings.ToUpper`: the empty text is kept,
and an ASCII byte at the head of a text is upper-cased by itself, whatever
follows it. -/
def UpperKeepsASCII (ToUpper : List Nat → List Nat) : Prop :=
  ToUpper [] = [] ∧
    ∀ (a : Nat) (s : List Nat), a < 128 →
      ToUpper (a :: s) = (if 97 ≤ a ∧ a ≤ 122 then a - 32 else a) :: ToUpper s

/-! ## `BuildFromSchema` (`internal/catalog/builder.go`) -/

/-- The source's `schema.Column`; `Typ` is its field `Type`. -/
structure Column where
  Name : List Nat
  Typ : List Nat
deriving DecidableEq, Repr

/-- The source's `schema.Table`. -/
structure Table where
  Name : List Nat
  Columns : List Column
deriving DecidableEq, Repr

/-- The source's `schema.Schema`. -/
structure Schema where
  Tables : List Table
deriving DecidableEq, Repr

/-- The source's `bigq.ColumnDef`. -/
structure ColumnDef where
  Name : List Nat
  TypeName : List Nat
deriving DecidableEq, Repr

/-- A table registered in a catalog: the path of sub-catalog names from the root to
the catalog it was added to, the name it was added under, and its columns. -/
structure TableEntry where
  catalog : List (List Nat)
  name : List Nat
  columns : List ColumnDef
deriving DecidableEq, Repr

/-- Modelled from the spec: the ZetaSQL catalog behind the cgo bridge
(`zetasql_SimpleCatalog_AddSubCatalog`, `zetasql_SimpleCatalog_AddTable`), which
is not part of the sources.  A catalog is a namespace of tables and named
sub-catalogs; it is recorded as the sub-catalogs created, each as its path of
names from the root, and the tables added, in call order. -/
structure Catalog where
  subCatalogs : List (List (List Nat))
  tables : List TableEntry
deriving DecidableEq, Repr

/-- What the catalog functions can report: the error of `bigq.NewCatalog`, and the
error of table creation for a table name and its columns (`none` is `nil`). -/
structure CatalogEnv where
  NewCatalogError : Option (List Nat)
  TableError : List Nat → List ColumnDef → Option (List Nat)

/-- The source's `AddSubCatalog`, called on the catalog at path `current`: the new
sub-catalog is inside that catalog; the result is the catalog and the handle
(path) of the new sub-catalog. -/
def AddSubCatalog (cat : Catalog) (current : List (List Nat)) (name : List Nat) :
    Catalog × List (List Nat) :=
  ({ cat with subCatalogs := cat.subCatalogs ++ [current ++ [name]] }, current ++ [name])

/-- The source's `AddTable`, called on the catalog at path `current`. -/
def AddTable (env : CatalogEnv) (cat : Catalog) (current : List (List Nat)) (name : List Nat)
    (columns : List ColumnDef) : Except (List Nat) Catalog :=
  match env.TableError name columns with
  | some err => Except.error err
  | none =>
    Except.ok { cat with
      tables := cat.tables ++ [{ catalog := current, name := name, columns := columns }] }

/-- The loop `for _, part := range parts[:len(parts)-1]` of `BuildFromSchema`: every
pass calls `current.AddSubCatalog(part)` and drops the result (`_ = sub`);
`current` is never assigned in the loop. -/
def prefixLoop (current : List (List Nat)) : List (List Nat) → Catalog → Catalog
  | [], cat => cat
  | part :: parts, cat => prefixLoop current parts (AddSubCatalog cat current part).1

/-- The body of the loop `for _, table := range s.Tables` of `BuildFromSchema`; the
root catalog `cat` is the empty path. -/
def buildTable (env : CatalogEnv) (cat : Catalog) (table : Table) : Except (List Nat) Catalog :=
  let columns := table.Columns.map fun col => { Name := col.Name, TypeName := col.Typ }
  let parts := table.Name.splitOn 46
  if parts.length = 1 then
    AddTable env cat [] (parts.headD []) columns
  else
    AddTable env (prefixLoop [] parts.dropLast cat) [] table.Name columns

/-- The loop `for _, table := range s.Tables` of `BuildFromSchema`. -/
def tablesLoop (env : CatalogEnv) : List Table → Catalog → Except (List Nat) Catalog
  | [], cat => Except.ok cat
  | table :: tables, cat =>
    match buildTable env cat table with
    | Except.error err => Except.error err
    | Except.ok cat1 => tablesLoop env tables cat1

/-- The source's `BuildFromSchema`. -/
def BuildFromSchema (env : CatalogEnv) (s : Schema) : Except (List Nat) Catalog :=
  match env.NewCatalogError with
  | some err => Except.error err
  | none => tablesLoop env s.Tables { subCatalogs := [], tables := [] }

/-- The catalog C14 describes for one table: a sub-catalog for every prefix of the
dotted name, each inside the one before it, and the table at the last of them
under the last component of its name. -/
def nestedCatalog (table : Table) : Catalog :=
  { subCatalogs := ((table.Name.splitOn 46).dropLast.inits).tail,
    tables := [{ catalog := (table.Name.splitOn 46).dropLast,
                 name := (table.Name.splitOn 46).getLastD [],
                 columns := table.Columns.map fun col =>
                   { Name := col.Name, TypeName := col.Typ } }] }

/-! ## `splitStatements` with the run-time checks of indexing and slicing -/

/-- The index expression `s[i]`: `none` (a run-time panic) when `i` is out of
range. -/
def index (s : List Nat) (i : Nat) : Option Nat :=
  s[i]?

/-- The slice expression `s[lo:hi]`: `none` (a run-time panic) unless
`lo ≤ hi ≤ len(s)`. -/
def sliceChecked (s : List Nat) (lo hi : Nat) : Option (List Nat) :=
  if lo ≤ hi ∧ hi ≤ s.length then some (slice s lo hi) else none

/-- The slice expression `s[lo:]`: `none` (a run-time panic) unless `lo ≤ len(s)`. -/
def sliceFromChecked (s : List Nat) (lo : Nat) : Option (List Nat) :=
  if lo ≤ s.length then some (s.drop lo) else none

/-- The condition `i+1 < len(sql) && sql[i+1] == b`: the index expression is
evaluated only when the first test holds. -/
def nextIs (sql : List Nat) (i b : Nat) : Option Bool :=
  if i + 1 < sql.length then (index sql (i + 1)).map fun d => decide (d = b) else some false

/-- The body of the loop of `splitStatements` at index `i`, every index and slice
checked: the new values of the variables and of `i`, or `none` when the body
panics. -/
def loopBodyChecked (sql : List Nat) (i : Nat) (st : ScanState) : Option (ScanState × Nat) :=
  match index sql i with
  | none => none
  | some c =>
    if c = 10 then some ({ st with line := st.line + 1, inLineComment := false }, i)
    else if st.inLineComment then some (st, i)
    else if st.inBlockComment then
      if c = 42 then
        match nextIs sql i 47 with
        | none => none
        | some true => some ({ st with inBlockComment := false }, i + 1)
        | some false => some (st, i)
      else some (st, i)
    else if st.inSingleQuote then
      if c = 39 then some ({ st with inSingleQuote := false }, i)
      else if c = 92 then some (st, i + 1)
      else some (st, i)
    else if st.inDoubleQuote then
      if c = 34 then some ({ st with inDoubleQuote := false }, i)
      else if c = 92 then some (st, i + 1)
      else some (st, i)
    else if st.inBacktick then
      if c = 96 then some ({ st with inBacktick := false }, i)
      else some (st, i)
    else if c = 39 then some ({ st with inSingleQuote := true }, i)
    else if c = 34 then some ({ st with inDoubleQuote := true }, i)
    else if c = 96 then some ({ st with inBacktick := true }, i)
    else if c = 45 then
      match nextIs sql i 45 with
      | none => none
      | some true => some ({ st with inLineComment := true }, i + 1)
      | some false => some (st, i)
    else if c = 47 then
      match nextIs sql i 42 with
      | none => none
      | some true => some ({ st with inBlockComment := true }, i + 1)
      | some false => some (st, i)
    else if c = 59 then
      match sliceChecked sql st.start i with
      | none => none
      | some text =>
        some ({ st with
                spans := st.spans ++ [{ text := text, startLine := st.startLine }],
                start := i + 1,
                startLine := st.line }, i)
    else some (st, i)

/-- The loop `for i := 0; i < len(sql); i++` with the checked body; the first
argument bounds the number of passes, and `none` is a panic or a loop that has
not ended within the bound. -/
def scanLoopChecked (sql : List Nat) : Nat → Nat → ScanState → Option ScanState
  | 0, i, st => if i < sql.length then none else some st
  | fuel + 1, i, st =>
    if i < sql.length then
      match loopBodyChecked sql i st with
      | none => none
      | some (st1, i1) => scanLoopChecked sql fuel (i1 + 1) st1
    else some st

/-- The source's `splitStatements`, every index and slice checked: `none` when it
panics or does not return. -/
def splitStatementsChecked (sql : List Nat) : Option (List stmtSpan) :=
  match scanLoopChecked sql sql.length 0 ScanState.init with
  | none => none
  | some st =>
    if st.start < sql.length then
      match sliceFromChecked sql st.start with
      | none => none
      | some remaining =>
        if TrimSpace remaining ≠ [] then
          some (st.spans ++ [{ text := remaining, startLine := st.startLine }])
        else some st.spans
    else some st.spans

/-- Value of a text of decimal digits. -/
def decValue (ds : List Nat) : Nat :=
  ds.foldl (fun acc d => 10 * acc + (d - 48)) 0

/-! ## White space -/

theorem isSpace1_lt {a : Nat} (h : isSpace1 a = true) : a < 33 := by
  simp [isSpace1] at h
  omega

theorem isSpace2_ge {a b : Nat} (h : isSpace2 a b = true) : 128 ≤ a ∧ 128 ≤ b := by
  simp [isSpace2] at h
  omega

theorem isSpace3_ge {a b c : Nat} (h : isSpace3 a b c = true) :
    128 ≤ a ∧ 128 ≤ b ∧ 128 ≤ c := by
  simp [isSpace3] at h
  omega

theorem mem_TrimLeft (b : Nat) (h1 : 33 ≤ b) (h2 : b < 128) :
    ∀ (n : Nat) (s : List Nat), s.length ≤ n → b ∈ s → b ∈ TrimLeft s := by
  intro n
  induction n with
  | zero =>
    intro s hs hb
    cases s with
    | nil => simp at hb
    | cons a r => simp at hs
  | succ n ih =>
    intro s hs hb
    rcases s with _ | ⟨a, _ | ⟨c, _ | ⟨d, r⟩⟩⟩
    · simp at hb
    · rw [TrimLeft]
      have hab : b = a := by simpa using hb
      subst hab
      by_cases ha : isSpace1 b = true
      · have := isSpace1_lt ha
        omega
      · simp [ha]
    · rw [TrimLeft]
      simp only [List.length_cons, List.length_nil] at hs
      by_cases ha : isSpace1 a = true
      · simp only [ha, if_true]
        apply ih [c] (by simp; omega)
        have := isSpace1_lt ha
        rcases List.mem_cons.1 hb with hb | hb
        · omega
        · exact hb
      · simp only [ha, Bool.false_eq_true, if_false]
        by_cases h2c : isSpace2 a c = true
        · have := isSpace2_ge h2c
          simp only [List.mem_cons, List.mem_singleton, List.not_mem_nil, or_false] at hb
          omega
        · simp only [h2c, Bool.false_eq_true, if_false]
          exact hb
    · rw [TrimLeft]
      simp only [List.length_cons] at hs
      by_cases ha : isSpace1 a = true
      · simp only [ha, if_true]
        apply ih (c :: d :: r) (by simp; omega)
        have := isSpace1_lt ha
        rcases List.mem_cons.1 hb with hb | hb
        · omega
        · exact hb
      · simp only [ha, Bool.false_eq_true, if_false]
        by_cases h2c : isSpace2 a c = true
        · simp only [h2c, if_true]
          apply ih (d :: r) (by simp; omega)
          have := isSpace2_ge h2c
          rcases List.mem_cons.1 hb with hb | hb
          · omega
          · rcases List.mem_cons.1 hb with hb | hb
            · omega
            · exact hb
        · simp only [h2c, Bool.false_eq_true, if_false]
          by_cases h3c : isSpace3 a c d = true
          · simp only [h3c, if_true]
            apply ih r (by omega)
            have := isSpace3_ge h3c
            simp only [List.mem_cons] at hb
            rcases hb with hb | hb | hb | hb
            · omega
            · omega
            · omega
            · exact hb
          · simp only [h3c, Bool.false_eq_true, if_false]
            exact hb

theorem mem_TrimLeftRev (b : Nat) (h1 : 33 ≤ b) (h2 : b < 128) :
    ∀ (n : Nat) (s : List Nat), s.length ≤ n → b ∈ s → b ∈ TrimLeftRev s := by
  intro n
  induction n with
  | zero =>
    intro s hs hb
    cases s with
    | nil => simp at hb
    | cons a r => simp at hs
  | succ n ih =>
    intro s hs hb
    rcases s with _ | ⟨a, _ | ⟨c, _ | ⟨d, r⟩⟩⟩
    · simp at hb
    · rw [TrimLeftRev]
      have hab : b = a := by simpa using hb
      subst hab
      by_cases ha : isSpace1 b = true
      · have := isSpace1_lt ha
        omega
      · simp [ha]
    · rw [TrimLeftRev]
      simp only [List.length_cons, List.length_nil] at hs
      by_cases ha : isSpace1 a = true
      · simp only [ha, if_true]
        apply ih [c] (by simp; omega)
        have := isSpace1_lt ha
        rcases List.mem_cons.1 hb with hb | hb
        · omega
        · exact hb
      · simp only [ha, Bool.false_eq_true, if_false]
        by_cases h2c : isSpace2 c a = true
        · have := isSpace2_ge h2c
          simp only [List.mem_cons, List.mem_singleton, List.not_mem_nil, or_false] at hb
          omega
        · simp only [h2c, Bool.false_eq_true, if_false]
          exact hb
    · rw [TrimLeftRev]
      simp only [List.length_cons] at hs
      by_cases ha : isSpace1 a = true
      · simp only [ha, if_true]
        apply ih (c :: d :: r) (by simp; omega)
        have := isSpace1_lt ha
        rcases List.mem_cons.1 hb with hb | hb
        · omega
        · exact hb
      · simp only [ha, Bool.false_eq_true, if_false]
        by_cases h2c : isSpace2 c a = true
        · simp only [h2c, if_true]
          apply ih (d :: r) (by simp; omega)
          have := isSpace2_ge h2c
          rcases List.mem_cons.1 hb with hb | hb
          · omega
          · rcases List.mem_cons.1 hb with hb | hb
            · omega
            · exact hb
        · simp only [h2c, Bool.false_eq_true, if_false]
          by_cases h3c : isSpace3 d c a = true
          · simp only [h3c, if_true]
            apply ih r (by omega)
            have := isSpace3_ge h3c
            simp only [List.mem_cons] at hb
            rcases hb with hb | hb | hb | hb
            · omega
            · omega
            · omega
            · exact hb
          · simp only [h3c, Bool.false_eq_true, if_false]
            exact hb

/-- A text with a printable ASCII byte (`!`..`~`, or DEL) is not white space only. -/
theorem TrimSpace_ne_nil (s : List Nat) (b : Nat) (hb : b ∈ s) (h1 : 33 ≤ b) (h2 : b < 128) :
    TrimSpace s ≠ [] := by
  have h3 : b ∈ TrimLeft s := mem_TrimLeft b h1 h2 _ s (le_refl _) hb
  have h4 : b ∈ TrimLeftRev (TrimLeft s).reverse :=
    mem_TrimLeftRev b h1 h2 _ _ (le_refl _) (List.mem_reverse.2 h3)
  have h5 : b ∈ TrimSpace s := by
    unfold TrimSpace TrimRight
    exact List.mem_reverse.2 h4
  intro h
  rw [h] at h5
  simp at h5

theorem TrimSpace_nil : TrimSpace [] = [] := by decide

theorem TrimLeft_one (a : Nat) (r : List Nat) (h : isSpace1 a = true) :
    TrimLeft (a :: r) = TrimLeft r := by
  rw [TrimLeft.eq_def]; simp [h]

theorem TrimLeft_two (a b : Nat) (r : List Nat) (h1 : ¬ isSpace1 a = true)
    (h2 : isSpace2 a b = true) : TrimLeft (a :: b :: r) = TrimLeft r := by
  rw [TrimLeft.eq_def]; simp [h1, h2]

theorem TrimLeft_three (a b c : Nat) (r : List Nat) (h1 : ¬ isSpace1 a = true)
    (h2 : ¬ isSpace2 a b = true) (h3 : isSpace3 a b c = true) :
    TrimLeft (a :: b :: c :: r) = TrimLeft r := by
  rw [TrimLeft.eq_def]; simp [h1, h2, h3]

theorem TrimLeft_keep1 (a : Nat) (h1 : ¬ isSpace1 a = true) : TrimLeft [a] = [a] := by
  rw [TrimLeft.eq_def]; simp [h1]

theorem TrimLeft_keep2 (a b : Nat) (h1 : ¬ isSpace1 a = true) (h2 : ¬ isSpace2 a b = true) :
    TrimLeft [a, b] = [a, b] := by
  rw [TrimLeft.eq_def]; simp [h1, h2]

theorem TrimLeft_keep3 (a b c : Nat) (r : List Nat) (h1 : ¬ isSpace1 a = true)
    (h2 : ¬ isSpace2 a b = true) (h3 : ¬ isSpace3 a b c = true) :
    TrimLeft (a :: b :: c :: r) = a :: b :: c :: r := by
  rw [TrimLeft.eq_def]; simp [h1, h2, h3]

theorem TrimLeftRev_one (a : Nat) (r : List Nat) (h : isSpace1 a = true) :
    TrimLeftRev (a :: r) = TrimLeftRev r := by
  rw [TrimLeftRev.eq_def]; simp [h]

theorem TrimLeftRev_two (a b : Nat) (r : List Nat) (h1 : ¬ isSpace1 a = true)
    (h2 : isSpace2 b a = true) : TrimLeftRev (a :: b :: r) = TrimLeftRev r := by
  rw [TrimLeftRev.eq_def]; simp [h1, h2]

theorem TrimLeftRev_three (a b c : Nat) (r : List Nat) (h1 : ¬ isSpace1 a = true)
    (h2 : ¬ isSpace2 b a = true) (h3 : isSpace3 c b a = true) :
    TrimLeftRev (a :: b :: c :: r) = TrimLeftRev r := by
  rw [TrimLeftRev.eq_def]; simp [h1, h2, h3]

theorem TrimLeftRev_keep1 (a : Nat) (h1 : ¬ isSpace1 a = true) : TrimLeftRev [a] = [a] := by
  rw [TrimLeftRev.eq_def]; simp [h1]

theorem TrimLeftRev_keep2 (a b : Nat) (h1 : ¬ isSpace1 a = true)
    (h2 : ¬ isSpace2 b a = true) : TrimLeftRev [a, b] = [a, b] := by
  rw [TrimLeftRev.eq_def]; simp [h1, h2]

theorem TrimLeftRev_keep3 (a b c : Nat) (r : List Nat) (h1 : ¬ isSpace1 a = true)
    (h2 : ¬ isSpace2 b a = true) (h3 : ¬ isSpace3 c b a = true) :
    TrimLeftRev (a :: b :: c :: r) = a :: b :: c :: r := by
  rw [TrimLeftRev.eq_def]; simp [h1, h2, h3]

theorem TrimLeft_nil : TrimLeft [] = [] := by rw [TrimLeft.eq_def]

theorem TrimLeftRev_nil : TrimLeftRev [] = [] := by rw [TrimLeftRev.eq_def]

theorem WhiteSpaceOnly.append {x y : List Nat} (hx : WhiteSpaceOnly x)
    (hy : WhiteSpaceOnly y) : WhiteSpaceOnly (x ++ y) := by
  induction hx with
  | nil => simpa using hy
  | one a r h _ ih => exact WhiteSpaceOnly.one a _ h ih
  | two a b r h _ ih => exact WhiteSpaceOnly.two a b _ h ih
  | three a b c r h _ ih => exact WhiteSpaceOnly.three a b c _ h ih

theorem TrimLeft_of_whiteSpaceOnly {t : List Nat} (h : WhiteSpaceOnly t) : TrimLeft t = [] := by
  induction h with
  | nil => exact TrimLeft_nil
  | one a r h _ ih => rw [TrimLeft_one a r h, ih]
  | two a b r h _ ih =>
    have h1 : ¬ isSpace1 a = true := fun h1 => by
      have := isSpace2_ge h
      have := isSpace1_lt h1
      omega
    rw [TrimLeft_two a b r h1 h, ih]
  | three a b c r h _ ih =>
    have g := isSpace3_ge h
    have h1 : ¬ isSpace1 a = true := fun h1 => by
      have := isSpace1_lt h1
      omega
    have h2 : ¬ isSpace2 a b = true := fun h2 => by
      simp only [isSpace3, Bool.or_eq_true, Bool.and_eq_true, decide_eq_true_eq] at h
      simp only [isSpace2, Bool.and_eq_true, decide_eq_true_eq] at h2
      omega
    rw [TrimLeft_three a b c r h1 h2 h, ih]

/-- What `TrimLeft` returns: a text that does not start with white space, after a
white-space-only beginning of the input. -/
theorem TrimLeft_spec : ∀ (n : Nat) (t : List Nat), t.length ≤ n →
    (∃ w, WhiteSpaceOnly w ∧ t = w ++ TrimLeft t) ∧ TrimLeft (TrimLeft t) = TrimLeft t := by
  intro n
  induction n with
  | zero =>
    intro t ht
    have : t = [] := List.length_eq_zero.1 (by omega)
    subst this
    exact ⟨⟨[], WhiteSpaceOnly.nil, rfl⟩, rfl⟩
  | succ n ih =>
    intro t ht
    rcases t with _ | ⟨a, _ | ⟨b, _ | ⟨c, r⟩⟩⟩
    · exact ⟨⟨[], WhiteSpaceOnly.nil, rfl⟩, rfl⟩
    · by_cases ha : isSpace1 a = true
      · have e : TrimLeft [a] = [] := by rw [TrimLeft_one a [] ha, TrimLeft_nil]
        rw [e]
        exact ⟨⟨[a], WhiteSpaceOnly.one a [] ha WhiteSpaceOnly.nil, rfl⟩, rfl⟩
      · have e : TrimLeft [a] = [a] := TrimLeft_keep1 a ha
        rw [e]
        exact ⟨⟨[], WhiteSpaceOnly.nil, rfl⟩, e⟩
    · simp only [List.length_cons, List.length_nil] at ht
      by_cases ha : isSpace1 a = true
      · have e : TrimLeft [a, b] = TrimLeft [b] := TrimLeft_one a [b] ha
        obtain ⟨⟨w, hw, hwe⟩, hid⟩ := ih [b] (by simp; omega)
        rw [e]
        refine ⟨⟨a :: w, WhiteSpaceOnly.one a w ha hw, ?_⟩, hid⟩
        rw [List.cons_append, ← hwe]
      · by_cases hab : isSpace2 a b = true
        · have e : TrimLeft [a, b] = [] := by rw [TrimLeft_two a b [] ha hab, TrimLeft_nil]
          rw [e]
          exact ⟨⟨[a, b], WhiteSpaceOnly.two a b [] hab WhiteSpaceOnly.nil, rfl⟩, rfl⟩
        · have e : TrimLeft [a, b] = [a, b] := TrimLeft_keep2 a b ha hab
          rw [e]
          exact ⟨⟨[], WhiteSpaceOnly.nil, rfl⟩, e⟩
    · simp only [List.length_cons] at ht
      by_cases ha : isSpace1 a = true
      · have e : TrimLeft (a :: b :: c :: r) = TrimLeft (b :: c :: r) :=
          TrimLeft_one a _ ha
        obtain ⟨⟨w, hw, hwe⟩, hid⟩ := ih (b :: c :: r) (by simp; omega)
        rw [e]
        refine ⟨⟨a :: w, WhiteSpaceOnly.one a w ha hw, ?_⟩, hid⟩
        rw [List.cons_append, ← hwe]
      · by_cases hab : isSpace2 a b = true
        · have e : TrimLeft (a :: b :: c :: r) = TrimLeft (c :: r) :=
            TrimLeft_two a b _ ha hab
          obtain ⟨⟨w, hw, hwe⟩, hid⟩ := ih (c :: r) (by simp; omega)
          rw [e]
          refine ⟨⟨a :: b :: w, WhiteSpaceOnly.two a b w hab hw, ?_⟩, hid⟩
          rw [List.cons_append, List.cons_append, ← hwe]
        · by_cases habc : isSpace3 a b c = true
          · have e : TrimLeft (a :: b :: c :: r) = TrimLeft r :=
              TrimLeft_three a b c r ha hab habc
            obtain ⟨⟨w, hw, hwe⟩, hid⟩ := ih r (by omega)
            rw [e]
            refine ⟨⟨a :: b :: c :: w, WhiteSpaceOnly.three a b c w habc hw, ?_⟩, hid⟩
            rw [List.cons_append, List.cons_append, List.cons_append, ← hwe]
          · have e : TrimLeft (a :: b :: c :: r) = a :: b :: c :: r :=
              TrimLeft_keep3 a b c r ha hab habc
            rw [e]
            exact ⟨⟨[], WhiteSpaceOnly.nil, rfl⟩, e⟩

/-- What `TrimLeftRev` returns: the input without an end which, read back to front,
is white space only. -/
theorem TrimLeftRev_spec : ∀ (n : Nat) (t : List Nat), t.length ≤ n →
    ∃ w, WhiteSpaceOnly w.reverse ∧ t = w ++ TrimLeftRev t := by
  intro n
  induction n with
  | zero =>
    intro t ht
    have : t = [] := List.length_eq_zero.1 (by omega)
    subst this
    exact ⟨[], WhiteSpaceOnly.nil, rfl⟩
  | succ n ih =>
    intro t ht
    have one : ∀ (a : Nat) (w : List Nat), isSpace1 a = true → WhiteSpaceOnly w.reverse →
        WhiteSpaceOnly (a :: w).reverse := by
      intro a w h hw
      rw [List.reverse_cons]
      exact hw.append (WhiteSpaceOnly.one a [] h WhiteSpaceOnly.nil)
    have two : ∀ (a b : Nat) (w : List Nat), isSpace2 b a = true → WhiteSpaceOnly w.reverse →
        WhiteSpaceOnly (a :: b :: w).reverse := by
      intro a b w h hw
      have : (a :: b :: w).reverse = w.reverse ++ [b, a] := by simp
      rw [this]
      exact hw.append (WhiteSpaceOnly.two b a [] h WhiteSpaceOnly.nil)
    have three : ∀ (a b c : Nat) (w : List Nat), isSpace3 c b a = true →
        WhiteSpaceOnly w.reverse → WhiteSpaceOnly (a :: b :: c :: w).reverse := by
      intro a b c w h hw
      have : (a :: b :: c :: w).reverse = w.reverse ++ [c, b, a] := by simp
      rw [this]
      exact hw.append (WhiteSpaceOnly.three c b a [] h WhiteSpaceOnly.nil)
    rcases t with _ | ⟨a, _ | ⟨b, _ | ⟨c, r⟩⟩⟩
    · exact ⟨[], WhiteSpaceOnly.nil, rfl⟩
    · by_cases ha : isSpace1 a = true
      · have e : TrimLeftRev [a] = [] := by rw [TrimLeftRev_one a [] ha, TrimLeftRev_nil]
        rw [e]
        exact ⟨[a], one a [] ha WhiteSpaceOnly.nil, rfl⟩
      · have e : TrimLeftRev [a] = [a] := TrimLeftRev_keep1 a ha
        rw [e]
        exact ⟨[], WhiteSpaceOnly.nil, rfl⟩
    · simp only [List.length_cons, List.length_nil] at ht
      by_cases ha : isSpace1 a = true
      · have e : TrimLeftRev [a, b] = TrimLeftRev [b] := TrimLeftRev_one a [b] ha
        obtain ⟨w, hw, hwe⟩ := ih [b] (by simp; omega)
        rw [e]
        refine ⟨a :: w, one a w ha hw, ?_⟩
        rw [List.cons_append, ← hwe]
      · by_cases hab : isSpace2 b a = true
        · have e : TrimLeftRev [a, b] = [] := by
            rw [TrimLeftRev_two a b [] ha hab, TrimLeftRev_nil]
          rw [e]
          exact ⟨[a, b], two a b [] hab WhiteSpaceOnly.nil, rfl⟩
        · have e : TrimLeftRev [a, b] = [a, b] := TrimLeftRev_keep2 a b ha hab
          rw [e]
          exact ⟨[], WhiteSpaceOnly.nil, rfl⟩
    · simp only [List.length_cons] at ht
      by_cases ha : isSpace1 a = true
      · have e : TrimLeftRev (a :: b :: c :: r) = TrimLeftRev (b :: c :: r) :=
          TrimLeftRev_one a _ ha
        obtain ⟨w, hw, hwe⟩ := ih (b :: c :: r) (by simp; omega)
        rw [e]
        refine ⟨a :: w, one a w ha hw, ?_⟩
        rw [List.cons_append, ← hwe]
      · by_cases hab : isSpace2 b a = true
        · have e : TrimLeftRev (a :: b :: c :: r) = TrimLeftRev (c :: r) :=
            TrimLeftRev_two a b _ ha hab
          obtain ⟨w, hw, hwe⟩ := ih (c :: r) (by simp; omega)
          rw [e]
          refine ⟨a :: b :: w, two a b w hab hw, ?_⟩
          rw [List.cons_append, List.cons_append, ← hwe]
        · by_cases habc : isSpace3 c b a = true
          · have e : TrimLeftRev (a :: b :: c :: r) = TrimLeftRev r :=
              TrimLeftRev_three a b c r ha hab habc
            obtain ⟨w, hw, hwe⟩ := ih r (by omega)
            rw [e]
            refine ⟨a :: b :: c :: w, three a b c w habc hw, ?_⟩
            rw [List.cons_append, List.cons_append, List.cons_append, ← hwe]
          · have e : TrimLeftRev (a :: b :: c :: r) = a :: b :: c :: r :=
              TrimLeftRev_keep3 a b c r ha hab habc
            rw [e]
            exact ⟨[], WhiteSpaceOnly.nil, rfl⟩

/-- The library function `strings.TrimSpace` returns the empty text exactly on the
texts that are empty or white space only. -/
theorem TrimSpace_eq_nil_iff (t : List Nat) : TrimSpace t = [] ↔ WhiteSpaceOnly t := by
  constructor
  · intro h
    obtain ⟨⟨w, hw, hwe⟩, hid⟩ := TrimLeft_spec _ t (le_refl _)
    obtain ⟨v, hv, hve⟩ := TrimLeftRev_spec _ (TrimLeft t).reverse (le_refl _)
    have h2 : TrimLeftRev (TrimLeft t).reverse = [] := by
      unfold TrimSpace TrimRight at h
      simpa using h
    rw [h2, List.append_nil] at hve
    have h3 : WhiteSpaceOnly (TrimLeft t) := by
      have : TrimLeft t = v.reverse := by rw [← hve, List.reverse_reverse]
      rw [this]
      exact hv
    have h4 : TrimLeft t = [] := by
      rw [← hid]
      exact TrimLeft_of_whiteSpaceOnly h3
    rw [h4, List.append_nil] at hwe
    rw [hwe]
    exact hw
  · intro h
    unfold TrimSpace
    rw [TrimLeft_of_whiteSpaceOnly h]
    rfl


/-! ## The segmenter on plain text -/

theorem scanLoop_nil (sql : List Nat) (i : Nat) (st : ScanState) :
    scanLoop sql [] i st = st := by
  rw [scanLoop]

theorem scanLoop_step (sql : List Nat) (c : Nat) (rest : List Nat) (i : Nat) (st st1 : ScanState)
    (h : loopBody sql i c rest.head? st = (st1, false)) :
    scanLoop sql (c :: rest) i st = scanLoop sql rest (i + 1) st1 := by
  rw [scanLoop, h]

theorem scanLoop_skip (sql : List Nat) (c d : Nat) (rest : List Nat) (i : Nat)
    (st st1 : ScanState) (h : loopBody sql i c (some d) st = (st1, true)) :
    scanLoop sql (c :: d :: rest) i st = scanLoop sql rest (i + 2) st1 := by
  rw [scanLoop]
  simp only [List.head?_cons, h]

theorem slice_append (pre rest : List Nat) (start : Nat) (h : start ≤ pre.length) :
    slice (pre ++ rest) start pre.length = pre.drop start := by
  unfold slice
  rw [List.drop_append_of_le_length h, List.take_append_of_le_length (by simp)]
  simp

theorem splitOn_single (cur : List Nat) (h : 59 ∉ cur) : cur.splitOn 59 = [cur] := by
  unfold List.splitOn
  apply List.splitOnP_eq_single
  intro x hx hx2
  simp only [beq_iff_eq] at hx2
  exact h (hx2 ▸ hx)

theorem splitOn_first (cur rest : List Nat) (h : 59 ∉ cur) :
    (cur ++ 59 :: rest).splitOn 59 = cur :: rest.splitOn 59 := by
  unfold List.splitOn
  apply List.splitOnP_first
  · intro x hx hx2
    simp only [beq_iff_eq] at hx2
    exact h (hx2 ▸ hx)
  · simp

theorem piecesSpec_single (cur : List Nat) (h : 59 ∉ cur) :
    piecesSpec cur = if TrimSpace cur = [] then [] else [cur] := by
  unfold piecesSpec
  rw [splitOn_single cur h]
  simp

theorem piecesSpec_first (cur rest : List Nat) (h : 59 ∉ cur) :
    piecesSpec (cur ++ 59 :: rest) = cur :: piecesSpec rest := by
  unfold piecesSpec
  rw [splitOn_first cur rest h]
  have hne : rest.splitOn 59 ≠ [] := List.splitOnP_ne_nil _ _
  obtain ⟨p, ps, hp⟩ := List.exists_cons_of_ne_nil hne
  rw [hp]
  simp [List.dropLast, List.getLastD]

theorem scan_plain (sql : List Nat) :
    ∀ (rest pre : List Nat) (spans : List stmtSpan) (line start startLine : Nat),
      sql = pre ++ rest → start ≤ pre.length → noOpeners rest → 59 ∉ pre.drop start →
      (finish sql (scanLoop sql rest pre.length
          { spans := spans, line := line, start := start, startLine := startLine,
            inSingleQuote := false, inDoubleQuote := false, inBacktick := false,
            inLineComment := false, inBlockComment := false })).map stmtSpan.text
        = spans.map stmtSpan.text ++ piecesSpec (pre.drop start ++ rest) := by
  intro rest
  induction rest with
  | nil =>
    intro pre spans line start startLine hsql hstart _ hcur
    rw [scanLoop_nil]
    simp only [List.append_nil] at hsql ⊢
    subst hsql
    rw [piecesSpec_single _ hcur]
    unfold finish
    simp only
    by_cases hlt : start < sql.length
    · by_cases ht : TrimSpace (List.drop start sql) = [] <;> simp [hlt, ht]
    · have : List.drop start sql = [] := List.drop_eq_nil_of_le (by omega)
      simp [hlt, this, TrimSpace_nil]
  | cons c rest ih =>
    intro pre spans line start startLine hsql hstart hclean hcur
    obtain ⟨h39, h34, h96, h45, h47, hrest⟩ := hclean
    have hsql2 : sql = (pre ++ [c]) ++ rest := by simp [hsql]
    have hlen : (pre ++ [c]).length = pre.length + 1 := by simp
    have hdrop : (pre ++ [c]).drop start = pre.drop start ++ [c] :=
      List.drop_append_of_le_length hstart
    by_cases hc : c = 59
    · subst hc
      rw [scanLoop_step sql 59 rest pre.length _
        { spans := spans ++ [{ text := slice sql start pre.length, startLine := startLine }],
          line := line, start := pre.length + 1, startLine := line,
          inSingleQuote := false, inDoubleQuote := false, inBacktick := false,
          inLineComment := false, inBlockComment := false } (by simp [loopBody])]
      rw [← hlen, ih (pre ++ [59]) _ line _ line hsql2 (le_refl _) hrest (by simp)]
      rw [piecesSpec_first _ _ hcur]
      have : slice sql start pre.length = pre.drop start := by
        rw [hsql]; exact slice_append pre _ start hstart
      simp [this]
    · have hcur2 : 59 ∉ (pre ++ [c]).drop start := by
        rw [hdrop]
        simp only [List.mem_append, List.mem_singleton, not_or]
        exact ⟨hcur, fun h => hc h.symm⟩
      have hgoal : pre.drop start ++ c :: rest = (pre ++ [c]).drop start ++ rest := by
        rw [hdrop]; simp
      by_cases h10 : c = 10
      · subst h10
        rw [scanLoop_step sql 10 rest pre.length _
          { spans := spans, line := line + 1, start := start, startLine := startLine,
            inSingleQuote := false, inDoubleQuote := false, inBacktick := false,
            inLineComment := false, inBlockComment := false } (by simp [loopBody])]
        rw [← hlen, ih (pre ++ [10]) spans (line + 1) start startLine hsql2 (by omega) hrest hcur2,
          hgoal]
      · rw [scanLoop_step sql c rest pre.length _
          { spans := spans, line := line, start := start, startLine := startLine,
            inSingleQuote := false, inDoubleQuote := false, inBacktick := false,
            inLineComment := false, inBlockComment := false } (by
              by_cases c45 : c = 45
              · simp [loopBody, c45, h45 c45]
              · by_cases c47 : c = 47
                · simp [loopBody, c47, h47 c47]
                · simp [loopBody, hc, h10, h39, h34, h96, c45, c47])]
        rw [← hlen, ih (pre ++ [c]) spans line start startLine hsql2 (by omega) hrest hcur2,
          hgoal]

theorem noOpeners_of (s : List Nat) (h1 : 39 ∉ s) (h2 : 34 ∉ s) (h3 : 96 ∉ s)
    (h4 : ¬ [45, 45] <:+: s) (h5 : ¬ [47, 42] <:+: s) : noOpeners s := by
  induction s with
  | nil => trivial
  | cons c rest ih =>
    refine ⟨?_, ?_, ?_, ?_, ?_, ih ?_ ?_ ?_ ?_ ?_⟩
    · rintro rfl; exact h1 (List.mem_cons_self _ _)
    · rintro rfl; exact h2 (List.mem_cons_self _ _)
    · rintro rfl; exact h3 (List.mem_cons_self _ _)
    · rintro rfl hh
      cases rest with
      | nil => simp at hh
      | cons d r =>
        simp only [List.head?_cons, Option.some.injEq] at hh
        subst hh
        exact h4 ⟨[], r, rfl⟩
    · rintro rfl hh
      cases rest with
      | nil => simp at hh
      | cons d r =>
        simp only [List.head?_cons, Option.some.injEq] at hh
        subst hh
        exact h5 ⟨[], r, rfl⟩
    · exact fun h => h1 (List.mem_cons_of_mem _ h)
    · exact fun h => h2 (List.mem_cons_of_mem _ h)
    · exact fun h => h3 (List.mem_cons_of_mem _ h)
    · exact fun h => h4 (List.infix_cons h)
    · exact fun h => h5 (List.infix_cons h)

/-- C1: on an input without quote characters and without the comment openers `--`
and `/*`, the texts of the spans of `splitStatements` are the pieces of the input
split on `;`, in order: one per semicolon (empty for adjacent semicolons), and
one more for the piece after the last semicolon exactly when that piece is not
empty and not white space only; "SELECT 1;" gives 1 span and "SELECT 1;;SELECT 2"
gives 3. -/
theorem splitStatements_plain :
    (∀ sql : List Nat, 39 ∉ sql → 34 ∉ sql → 96 ∉ sql → ¬ [45, 45] <:+: sql →
      ¬ [47, 42] <:+: sql →
      (¬ WhiteSpaceOnly ((sql.splitOn 59).getLastD []) →
        (splitStatements sql).map stmtSpan.text = sql.splitOn 59) ∧
      (WhiteSpaceOnly ((sql.splitOn 59).getLastD []) →
        (splitStatements sql).map stmtSpan.text = (sql.splitOn 59).dropLast)) ∧
    (splitStatements (bytes "SELECT 1;")).map stmtSpan.text = [bytes "SELECT 1"] ∧
    (splitStatements (bytes "SELECT 1;;SELECT 2")).map stmtSpan.text
      = [bytes "SELECT 1", [], bytes "SELECT 2"] := by
  refine ⟨?_, by decide, by decide⟩
  intro sql h1 h2 h3 h4 h5
  have h := scan_plain sql sql [] [] 1 0 1 rfl (le_refl _) (noOpeners_of sql h1 h2 h3 h4 h5)
    (by simp)
  have hs : (splitStatements sql).map stmtSpan.text = piecesSpec sql := by
    simpa [splitStatements, ScanState.init] using h
  rw [hs]
  unfold piecesSpec
  have hne : sql.splitOn 59 ≠ [] := List.splitOnP_ne_nil _ _
  rcases List.eq_nil_or_concat (sql.splitOn 59) with hnil | ⟨init, last, hl⟩
  · exact absurd hnil hne
  · rw [hl]
    simp only [List.concat_eq_append, List.dropLast_concat, List.getLastD_concat,
      ← TrimSpace_eq_nil_iff]
    constructor
    · intro hw; rw [if_neg hw]
    · intro hw; rw [if_pos hw, List.append_nil]

theorem splitStatements_plain_witness :
    (splitStatements (bytes "a - b; c / d;; \n")).map stmtSpan.text
        = [bytes "a - b", bytes " c / d", []] ∧
      (splitStatements (bytes "a - b; c / d;;e")).map stmtSpan.text
        = [bytes "a - b", bytes " c / d", [], bytes "e"] :=
  ⟨((splitStatements_plain.1 (bytes "a - b; c / d;; \n") (by decide) (by decide) (by decide)
      (by decide) (by decide)).2
      ((TrimSpace_eq_nil_iff _).1 (by decide))).trans (by decide),
   ((splitStatements_plain.1 (bytes "a - b; c / d;;e") (by decide) (by decide) (by decide)
      (by decide) (by decide)).1
      (fun h => absurd ((TrimSpace_eq_nil_iff _).2 h) (by decide))).trans (by decide)⟩

/-! ## The segmenter inside quotes and comments -/

/-- A stretch of bytes on which the body of the loop only counts newlines. -/
theorem scan_inert (sql : List Nat) (sq dq bt bc : Bool) :
    ∀ (t rest : List Nat) (i : Nat) (spans : List stmtSpan) (line start startLine : Nat),
      (∀ c ∈ t, c ≠ 10 → ∀ (j : Nat) (next : Option Nat) (ln : Nat),
        loopBody sql j c next
            { spans := spans, line := ln, start := start, startLine := startLine,
              inSingleQuote := sq, inDoubleQuote := dq, inBacktick := bt,
              inLineComment := false, inBlockComment := bc }
          = ({ spans := spans, line := ln, start := start, startLine := startLine,
               inSingleQuote := sq, inDoubleQuote := dq, inBacktick := bt,
               inLineComment := false, inBlockComment := bc }, false)) →
      scanLoop sql (t ++ rest) i
          { spans := spans, line := line, start := start, startLine := startLine,
            inSingleQuote := sq, inDoubleQuote := dq, inBacktick := bt,
            inLineComment := false, inBlockComment := bc }
        = scanLoop sql rest (i + t.length)
          { spans := spans, line := line + t.count 10, start := start, startLine := startLine,
            inSingleQuote := sq, inDoubleQuote := dq, inBacktick := bt,
            inLineComment := false, inBlockComment := bc } := by
  intro t
  induction t with
  | nil => intros; simp
  | cons c t ih =>
    intro rest i spans line start startLine hstep
    have hstep2 := fun d (hd : d ∈ t) => hstep d (List.mem_cons_of_mem _ hd)
    have e1 : i + (c :: t).length = i + 1 + t.length := by simp; omega
    rw [List.cons_append, e1]
    by_cases h10 : c = 10
    · subst h10
      rw [scanLoop_step sql 10 (t ++ rest) i _
        { spans := spans, line := line + 1, start := start, startLine := startLine,
          inSingleQuote := sq, inDoubleQuote := dq, inBacktick := bt,
          inLineComment := false, inBlockComment := bc } (by simp [loopBody])]
      rw [ih rest (i + 1) spans (line + 1) start startLine hstep2]
      have e2 : line + List.count 10 (10 :: t) = line + 1 + List.count 10 t := by
        rw [List.count_cons_self]; omega
      rw [e2]
    · rw [scanLoop_step sql c (t ++ rest) i _ _
        (hstep c (List.mem_cons_self _ _) h10 i _ line)]
      rw [ih rest (i + 1) spans line start startLine hstep2]
      have e2 : List.count 10 (c :: t) = List.count 10 t :=
        List.count_cons_of_ne (fun h => h10 h.symm) t
      rw [e2]

theorem scan_single_quote (sql : List Nat) (t rest : List Nat) (i : Nat)
    (spans : List stmtSpan) (line start startLine : Nat) (dq bt : Bool)
    (h39 : 39 ∉ t) (h92 : 92 ∉ t) :
    scanLoop sql (t ++ rest) i
        { spans := spans, line := line, start := start, startLine := startLine,
          inSingleQuote := true, inDoubleQuote := dq, inBacktick := bt,
          inLineComment := false, inBlockComment := false }
      = scanLoop sql rest (i + t.length)
        { spans := spans, line := line + t.count 10, start := start, startLine := startLine,
          inSingleQuote := true, inDoubleQuote := dq, inBacktick := bt,
          inLineComment := false, inBlockComment := false } := by
  apply scan_inert
  intro c hc h10 j next ln
  have a39 : c ≠ 39 := fun h => h39 (h ▸ hc)
  have a92 : c ≠ 92 := fun h => h92 (h ▸ hc)
  simp [loopBody, h10, a39, a92]

theorem scan_double_quote (sql : List Nat) (t rest : List Nat) (i : Nat)
    (spans : List stmtSpan) (line start startLine : Nat) (bt : Bool)
    (h34 : 34 ∉ t) (h92 : 92 ∉ t) :
    scanLoop sql (t ++ rest) i
        { spans := spans, line := line, start := start, startLine := startLine,
          inSingleQuote := false, inDoubleQuote := true, inBacktick := bt,
          inLineComment := false, inBlockComment := false }
      = scanLoop sql rest (i + t.length)
        { spans := spans, line := line + t.count 10, start := start, startLine := startLine,
          inSingleQuote := false, inDoubleQuote := true, inBacktick := bt,
          inLineComment := false, inBlockComment := false } := by
  apply scan_inert
  intro c hc h10 j next ln
  have a34 : c ≠ 34 := fun h => h34 (h ▸ hc)
  have a92 : c ≠ 92 := fun h => h92 (h ▸ hc)
  simp [loopBody, h10, a34, a92]

theorem scan_backtick (sql : List Nat) (t rest : List Nat) (i : Nat)
    (spans : List stmtSpan) (line start startLine : Nat) (h96 : 96 ∉ t) :
    scanLoop sql (t ++ rest) i
        { spans := spans, line := line, start := start, startLine := startLine,
          inSingleQuote := false, inDoubleQuote := false, inBacktick := true,
          inLineComment := false, inBlockComment := false }
      = scanLoop sql rest (i + t.length)
        { spans := spans, line := line + t.count 10, start := start, startLine := startLine,
          inSingleQuote := false, inDoubleQuote := false, inBacktick := true,
          inLineComment := false, inBlockComment := false } := by
  apply scan_inert
  intro c hc h10 j next ln
  have a96 : c ≠ 96 := fun h => h96 (h ▸ hc)
  simp [loopBody, h10, a96]

theorem scan_block_comment (sql : List Nat) :
    ∀ (t rest : List Nat) (i : Nat) (spans : List stmtSpan) (line start startLine : Nat)
      (sq dq bt : Bool), ¬ [42, 47] <:+: t →
      scanLoop sql (t ++ 42 :: 47 :: rest) i
          { spans := spans, line := line, start := start, startLine := startLine,
            inSingleQuote := sq, inDoubleQuote := dq, inBacktick := bt,
            inLineComment := false, inBlockComment := true }
        = scanLoop sql rest (i + t.length + 2)
          { spans := spans, line := line + t.count 10, start := start, startLine := startLine,
            inSingleQuote := sq, inDoubleQuote := dq, inBacktick := bt,
            inLineComment := false, inBlockComment := false } := by
  intro t
  induction t with
  | nil =>
    intro rest i spans line start startLine sq dq bt _
    rw [List.nil_append, scanLoop_skip sql 42 47 rest i _
      { spans := spans, line := line, start := start, startLine := startLine,
        inSingleQuote := sq, inDoubleQuote := dq, inBacktick := bt,
        inLineComment := false, inBlockComment := false } (by simp [loopBody])]
    simp
  | cons c t ih =>
    intro rest i spans line start startLine sq dq bt hin
    have hin2 : ¬ [42, 47] <:+: t := fun h => hin (List.infix_cons h)
    have hnext : ¬ (c = 42 ∧ (t ++ 42 :: 47 :: rest).head? = some 47) := by
      rintro ⟨rfl, hh⟩
      cases t with
      | nil => simp at hh
      | cons d r =>
        simp only [List.cons_append, List.head?_cons, Option.some.injEq] at hh
        subst hh
        exact hin ⟨[], r, rfl⟩
    rw [List.cons_append]
    by_cases h10 : c = 10
    · subst h10
      rw [scanLoop_step sql 10 (t ++ 42 :: 47 :: rest) i _
        { spans := spans, line := line + 1, start := start, startLine := startLine,
          inSingleQuote := sq, inDoubleQuote := dq, inBacktick := bt,
          inLineComment := false, inBlockComment := true } (by simp [loopBody])]
      rw [ih rest (i + 1) spans (line + 1) start startLine sq dq bt hin2]
      have e2 : line + List.count 10 (10 :: t) = line + 1 + List.count 10 t := by
        rw [List.count_cons_self]; omega
      have e1 : i + (10 :: t).length + 2 = i + 1 + t.length + 2 := by simp; omega
      rw [e1, e2]
    · rw [scanLoop_step sql c (t ++ 42 :: 47 :: rest) i _
        { spans := spans, line := line, start := start, startLine := startLine,
          inSingleQuote := sq, inDoubleQuote := dq, inBacktick := bt,
          inLineComment := false, inBlockComment := true } (by
            unfold loopBody
            simp only [h10, if_false, Bool.false_eq_true, if_true, hnext])]
      rw [ih rest (i + 1) spans line start startLine sq dq bt hin2]
      have e2 : List.count 10 (c :: t) = List.count 10 t :=
        List.count_cons_of_ne (fun h => h10 h.symm) t
      have e1 : i + (c :: t).length + 2 = i + 1 + t.length + 2 := by simp; omega
      rw [e1, e2]

theorem scan_line_comment (sql : List Nat) :
    ∀ (t : List Nat) (i : Nat) (st : ScanState), 10 ∉ t → st.inLineComment = true →
      scanLoop sql t i st = st := by
  intro t
  induction t with
  | nil => intros; rw [scanLoop_nil]
  | cons c t ih =>
    intro i st h10 hst
    have a10 : c ≠ 10 := fun h => h10 (h ▸ List.mem_cons_self _ _)
    rw [scanLoop_step sql c t i st st (by simp [loopBody, a10, hst])]
    exact ih (i + 1) st (fun h => h10 (List.mem_cons_of_mem _ h)) hst

/-- When the loop ends without a span and with `start = 0`, a text that starts
with a printable byte is returned as the only span. -/
theorem splitStatements_whole (sql : List Nat) (b : Nat) (hb : b ∈ sql) (h1 : 33 ≤ b)
    (h2 : b < 128) (hspans : (scanLoop sql sql 0 ScanState.init).spans = [])
    (hstart : (scanLoop sql sql 0 ScanState.init).start = 0)
    (hline : (scanLoop sql sql 0 ScanState.init).startLine = 1) :
    splitStatements sql = [{ text := sql, startLine := 1 }] := by
  unfold splitStatements finish
  rw [hspans, hstart, hline]
  have hlen : 0 < sql.length := List.length_pos_of_mem hb
  have ht : TrimSpace sql ≠ [] := TrimSpace_ne_nil sql b hb h1 h2
  simp [hlen, ht]

theorem scan_one_single (t : List Nat) (h39 : 39 ∉ t) (h92 : 92 ∉ t) (sql : List Nat) :
    scanLoop sql (bytes "SELECT '" ++ t ++ bytes "'") 0 ScanState.init
      = { spans := [], line := 1 + t.count 10, start := 0, startLine := 1,
          inSingleQuote := false, inDoubleQuote := false, inBacktick := false,
          inLineComment := false, inBlockComment := false } := by
  have e1 : bytes "SELECT '" = [83, 69, 76, 69, 67, 84, 32, 39] := by decide
  have e2 : bytes "'" = [39] := by decide
  rw [e1, e2]
  simp only [List.cons_append, List.nil_append, List.append_assoc]
  have e3 : scanLoop sql (83 :: 69 :: 76 :: 69 :: 67 :: 84 :: 32 :: 39 :: (t ++ [39])) 0
      ScanState.init = scanLoop sql (t ++ [39]) 8
        { spans := [], line := 1, start := 0, startLine := 1,
          inSingleQuote := true, inDoubleQuote := false, inBacktick := false,
          inLineComment := false, inBlockComment := false } := by
    simp [scanLoop, loopBody, ScanState.init]
  rw [e3, scan_single_quote sql t [39] 8 [] 1 0 1 false false h39 h92]
  simp [scanLoop, loopBody]

theorem scan_one_double (t : List Nat) (h34 : 34 ∉ t) (h92 : 92 ∉ t) (sql : List Nat) :
    scanLoop sql (bytes "SELECT \"" ++ t ++ bytes "\"") 0 ScanState.init
      = { spans := [], line := 1 + t.count 10, start := 0, startLine := 1,
          inSingleQuote := false, inDoubleQuote := false, inBacktick := false,
          inLineComment := false, inBlockComment := false } := by
  have e1 : bytes "SELECT \"" = [83, 69, 76, 69, 67, 84, 32, 34] := by decide
  have e2 : bytes "\"" = [34] := by decide
  rw [e1, e2]
  simp only [List.cons_append, List.nil_append, List.append_assoc]
  have e3 : scanLoop sql (83 :: 69 :: 76 :: 69 :: 67 :: 84 :: 32 :: 34 :: (t ++ [34])) 0
      ScanState.init = scanLoop sql (t ++ [34]) 8
        { spans := [], line := 1, start := 0, startLine := 1,
          inSingleQuote := false, inDoubleQuote := true, inBacktick := false,
          inLineComment := false, inBlockComment := false } := by
    simp [scanLoop, loopBody, ScanState.init]
  rw [e3, scan_double_quote sql t [34] 8 [] 1 0 1 false h34 h92]
  simp [scanLoop, loopBody]

theorem scan_one_backtick (t : List Nat) (h96 : 96 ∉ t) (sql : List Nat) :
    scanLoop sql (bytes "SELECT `" ++ t ++ bytes "`") 0 ScanState.init
      = { spans := [], line := 1 + t.count 10, start := 0, startLine := 1,
          inSingleQuote := false, inDoubleQuote := false, inBacktick := false,
          inLineComment := false, inBlockComment := false } := by
  have e1 : bytes "SELECT `" = [83, 69, 76, 69, 67, 84, 32, 96] := by decide
  have e2 : bytes "`" = [96] := by decide
  rw [e1, e2]
  simp only [List.cons_append, List.nil_append, List.append_assoc]
  have e3 : scanLoop sql (83 :: 69 :: 76 :: 69 :: 67 :: 84 :: 32 :: 96 :: (t ++ [96])) 0
      ScanState.init = scanLoop sql (t ++ [96]) 8
        { spans := [], line := 1, start := 0, startLine := 1,
          inSingleQuote := false, inDoubleQuote := false, inBacktick := true,
          inLineComment := false, inBlockComment := false } := by
    simp [scanLoop, loopBody, ScanState.init]
  rw [e3, scan_backtick sql t [96] 8 [] 1 0 1 h96]
  simp [scanLoop, loopBody]

theorem scan_one_block (t : List Nat) (hin : ¬ [42, 47] <:+: t) (sql : List Nat) :
    scanLoop sql (bytes "SELECT 1 /*" ++ t ++ bytes "*/") 0 ScanState.init
      = { spans := [], line := 1 + t.count 10, start := 0, startLine := 1,
          inSingleQuote := false, inDoubleQuote := false, inBacktick := false,
          inLineComment := false, inBlockComment := false } := by
  have e1 : bytes "SELECT 1 /*" = [83, 69, 76, 69, 67, 84, 32, 49, 32, 47, 42] := by decide
  have e2 : bytes "*/" = [42, 47] := by decide
  rw [e1, e2]
  simp only [List.cons_append, List.nil_append, List.append_assoc]
  have e3 : scanLoop sql
      (83 :: 69 :: 76 :: 69 :: 67 :: 84 :: 32 :: 49 :: 32 :: 47 :: 42 :: (t ++ [42, 47])) 0
      ScanState.init = scanLoop sql (t ++ [42, 47]) 11
        { spans := [], line := 1, start := 0, startLine := 1,
          inSingleQuote := false, inDoubleQuote := false, inBacktick := false,
          inLineComment := false, inBlockComment := true } := by
    simp [scanLoop, loopBody, ScanState.init]
  rw [e3, scan_block_comment sql t [] 11 [] 1 0 1 false false false hin, scanLoop_nil]

theorem scan_one_line (t : List Nat) (h10 : 10 ∉ t) (sql : List Nat) :
    scanLoop sql (bytes "SELECT 1 --" ++ t) 0 ScanState.init
      = { spans := [], line := 1, start := 0, startLine := 1,
          inSingleQuote := false, inDoubleQuote := false, inBacktick := false,
          inLineComment := true, inBlockComment := false } := by
  have e1 : bytes "SELECT 1 --" = [83, 69, 76, 69, 67, 84, 32, 49, 32, 45, 45] := by decide
  rw [e1]
  simp only [List.cons_append, List.nil_append]
  have e3 : scanLoop sql (83 :: 69 :: 76 :: 69 :: 67 :: 84 :: 32 :: 49 :: 32 :: 45 :: 45 :: t) 0
      ScanState.init = scanLoop sql t 11
        { spans := [], line := 1, start := 0, startLine := 1,
          inSingleQuote := false, inDoubleQuote := false, inBacktick := false,
          inLineComment := true, inBlockComment := false } := by
    simp [scanLoop, loopBody, ScanState.init]
  rw [e3, scan_line_comment sql t 11 _ h10 rfl]

theorem mem_S_single (t : List Nat) : 83 ∈ bytes "SELECT '" ++ t ++ bytes "'" := by
  have e1 : bytes "SELECT '" = [83, 69, 76, 69, 67, 84, 32, 39] := by decide
  simp [e1]

theorem mem_S_double (t : List Nat) : 83 ∈ bytes "SELECT \"" ++ t ++ bytes "\"" := by
  have e1 : bytes "SELECT \"" = [83, 69, 76, 69, 67, 84, 32, 34] := by decide
  simp [e1]

theorem mem_S_backtick (t : List Nat) : 83 ∈ bytes "SELECT `" ++ t ++ bytes "`" := by
  have e1 : bytes "SELECT `" = [83, 69, 76, 69, 67, 84, 32, 96] := by decide
  simp [e1]

theorem mem_S_block (t : List Nat) : 83 ∈ bytes "SELECT 1 /*" ++ t ++ bytes "*/" := by
  have e1 : bytes "SELECT 1 /*" = [83, 69, 76, 69, 67, 84, 32, 49, 32, 47, 42] := by decide
  simp [e1]

theorem mem_S_line (t : List Nat) : 83 ∈ bytes "SELECT 1 --" ++ t := by
  have e1 : bytes "SELECT 1 --" = [83, 69, 76, 69, 67, 84, 32, 49, 32, 45, 45] := by decide
  simp [e1]

/-- C2: a semicolon inside a quoted or commented region does not separate spans.
For every text `t`, `splitStatements` returns exactly one span, the whole input
(starting on line 1), for `SELECT '` t `'` and `SELECT "` t `"` (t without that
quote and without backslash), for SELECT, a backtick, t, a backtick (t without
backtick), for `SELECT 1 /*` t `*/` (t without `*/`) and for `SELECT 1 --` t
(t without newline), however many semicolons `t` contains. -/
theorem splitStatements_quoted :
    (∀ t : List Nat, 39 ∉ t → 92 ∉ t →
      splitStatements (bytes "SELECT '" ++ t ++ bytes "'")
        = [{ text := bytes "SELECT '" ++ t ++ bytes "'", startLine := 1 }]) ∧
    (∀ t : List Nat, 34 ∉ t → 92 ∉ t →
      splitStatements (bytes "SELECT \"" ++ t ++ bytes "\"")
        = [{ text := bytes "SELECT \"" ++ t ++ bytes "\"", startLine := 1 }]) ∧
    (∀ t : List Nat, 96 ∉ t →
      splitStatements (bytes "SELECT `" ++ t ++ bytes "`")
        = [{ text := bytes "SELECT `" ++ t ++ bytes "`", startLine := 1 }]) ∧
    (∀ t : List Nat, ¬ bytes "*/" <:+: t →
      splitStatements (bytes "SELECT 1 /*" ++ t ++ bytes "*/")
        = [{ text := bytes "SELECT 1 /*" ++ t ++ bytes "*/", startLine := 1 }]) ∧
    (∀ t : List Nat, 10 ∉ t →
      splitStatements (bytes "SELECT 1 --" ++ t)
        = [{ text := bytes "SELECT 1 --" ++ t, startLine := 1 }]) := by
  refine ⟨?_, ?_, ?_, ?_, ?_⟩
  · intro t h1 h2
    apply splitStatements_whole _ 83 (mem_S_single t) (by omega) (by omega) <;>
      rw [scan_one_single t h1 h2]
  · intro t h1 h2
    apply splitStatements_whole _ 83 (mem_S_double t) (by omega) (by omega) <;>
      rw [scan_one_double t h1 h2]
  · intro t h1
    apply splitStatements_whole _ 83 (mem_S_backtick t) (by omega) (by omega) <;>
      rw [scan_one_backtick t h1]
  · intro t h1
    have e2 : bytes "*/" = [42, 47] := by decide
    rw [e2] at h1
    apply splitStatements_whole _ 83 (mem_S_block t) (by omega) (by omega) <;>
      rw [scan_one_block t h1]
  · intro t h1
    apply splitStatements_whole _ 83 (mem_S_line t) (by omega) (by omega) <;>
      rw [scan_one_line t h1]

theorem splitStatements_quoted_witness :
    splitStatements (bytes "SELECT 'a;b'")
      = [{ text := bytes "SELECT 'a;b'", startLine := 1 }] ∧
    splitStatements (bytes "SELECT \"a;\nb\"")
      = [{ text := bytes "SELECT \"a;\nb\"", startLine := 1 }] ∧
    splitStatements (bytes "SELECT `a;\\b`")
      = [{ text := bytes "SELECT `a;\\b`", startLine := 1 }] ∧
    splitStatements (bytes "SELECT 1 /*/;*;*/")
      = [{ text := bytes "SELECT 1 /*/;*;*/", startLine := 1 }] ∧
    splitStatements (bytes "SELECT 1 --a;b;")
      = [{ text := bytes "SELECT 1 --a;b;", startLine := 1 }] :=
  ⟨splitStatements_quoted.1 (bytes "a;b") (by decide) (by decide),
   splitStatements_quoted.2.1 (bytes "a;\nb") (by decide) (by decide),
   splitStatements_quoted.2.2.1 (bytes "a;\\b") (by decide),
   splitStatements_quoted.2.2.2.1 (bytes "/;*;") (by decide),
   splitStatements_quoted.2.2.2.2 (bytes "a;b;") (by decide)⟩

/-! ## Invariants of the loop -/

/-- What one pass of the loop body does to the spans: nothing, or, at a semicolon
outside quotes and comments, one more span `sql[start:i]`. -/
theorem loopBody_spans (sql : List Nat) (i c : Nat) (next : Option Nat) (st : ScanState) :
    ((loopBody sql i c next st).1.spans = st.spans ∧
      (loopBody sql i c next st).1.start = st.start ∧
      (loopBody sql i c next st).1.startLine = st.startLine) ∨
    (c = 59 ∧
      (loopBody sql i c next st).1.spans
        = st.spans ++ [{ text := slice sql st.start i, startLine := st.startLine }] ∧
      (loopBody sql i c next st).1.start = i + 1 ∧
      (loopBody sql i c next st).1.startLine = st.line) := by
  by_cases h10 : c = 10
  · left; simp [loopBody, h10]
  by_cases hlc : st.inLineComment = true
  · left; simp [loopBody, h10, hlc]
  by_cases hbc : st.inBlockComment = true
  · left
    by_cases hx : c = 42 ∧ next = some 47 <;> simp [loopBody, h10, hlc, hbc, hx]
  by_cases hsq : st.inSingleQuote = true
  · left
    by_cases h39 : c = 39
    · simp [loopBody, hlc, hbc, hsq, h39]
    · by_cases h92 : c = 92 <;> simp [loopBody, h10, hlc, hbc, hsq, h39, h92]
  by_cases hdq : st.inDoubleQuote = true
  · left
    by_cases h34 : c = 34
    · simp [loopBody, hlc, hbc, hsq, hdq, h34]
    · by_cases h92 : c = 92 <;> simp [loopBody, h10, hlc, hbc, hsq, hdq, h34, h92]
  by_cases hbt : st.inBacktick = true
  · left
    by_cases h96 : c = 96 <;> simp [loopBody, h10, hlc, hbc, hsq, hdq, hbt, h96]
  by_cases h39 : c = 39
  · left; simp [loopBody, hlc, hbc, hsq, hdq, hbt, h39]
  by_cases h34 : c = 34
  · left; simp [loopBody, hlc, hbc, hsq, hdq, hbt, h34]
  by_cases h96 : c = 96
  · left; simp [loopBody, hlc, hbc, hsq, hdq, hbt, h96]
  by_cases h45 : c = 45
  · left
    by_cases hn : next = some 45 <;> simp [loopBody, hlc, hbc, hsq, hdq, hbt, h45, hn]
  by_cases h47 : c = 47
  · left
    by_cases hn : next = some 42 <;> simp [loopBody, hlc, hbc, hsq, hdq, hbt, h47, hn]
  by_cases h59 : c = 59
  · right; simp [loopBody, hlc, hbc, hsq, hdq, hbt, h59]
  · left; simp [loopBody, h10, hlc, hbc, hsq, hdq, hbt, h39, h34, h96, h45, h47, h59]

/-- A property of the index and the variables that every pass of the loop body
keeps, and that stays true when the index grows, holds when the loop ends. -/
theorem scanLoop_invariant (sql : List Nat) (P : Nat → ScanState → Prop)
    (hstep : ∀ (pre : List Nat) (c : Nat) (rest : List Nat) (st : ScanState),
      sql = pre ++ c :: rest → P pre.length st →
        P (pre.length + 1) (loopBody sql pre.length c rest.head? st).1)
    (hmono : ∀ (i : Nat) (st : ScanState), P i st → P (i + 1) st) :
    ∀ (n : Nat) (rest pre : List Nat) (st : ScanState), rest.length ≤ n →
      sql = pre ++ rest → P pre.length st →
      ∃ j, P j (scanLoop sql rest pre.length st) := by
  intro n
  induction n with
  | zero =>
    intro rest pre st hn _ hP
    have : rest = [] := List.length_eq_zero.1 (by omega)
    subst this
    exact ⟨_, by rw [scanLoop_nil]; exact hP⟩
  | succ n ih =>
    intro rest pre st hn hsql hP
    cases rest with
    | nil => exact ⟨_, by rw [scanLoop_nil]; exact hP⟩
    | cons c rest =>
      have h1 := hstep pre c rest st hsql hP
      have hsql1 : sql = (pre ++ [c]) ++ rest := by simp [hsql]
      have hlen1 : (pre ++ [c]).length = pre.length + 1 := by simp
      simp only [List.length_cons] at hn
      rw [scanLoop]
      rcases hb : loopBody sql pre.length c rest.head? st with ⟨st1, skip⟩
      rw [hb] at h1
      cases skip with
      | false =>
        simp only
        rw [← hlen1]
        exact ih rest (pre ++ [c]) st1 (by omega) hsql1 (by rw [hlen1]; exact h1)
      | true =>
        simp only
        cases rest with
        | nil => exact ⟨_, h1⟩
        | cons d rest2 =>
          simp only
          have hsql2 : sql = (pre ++ [c, d]) ++ rest2 := by simp [hsql]
          have hlen2 : (pre ++ [c, d]).length = pre.length + 2 := by simp
          simp only [List.length_cons] at hn
          rw [← hlen2]
          exact ih rest2 (pre ++ [c, d]) st1 (by omega) hsql2
            (by rw [hlen2]; exact hmono _ _ h1)

theorem take_succ_of_append (pre : List Nat) (c : Nat) (rest : List Nat) (start : Nat)
    (h : start ≤ pre.length) :
    (pre ++ c :: rest).take start ++ (slice (pre ++ c :: rest) start pre.length ++ [c])
      = (pre ++ c :: rest).take (pre.length + 1) := by
  rw [slice_append pre (c :: rest) start h, List.take_append_of_le_length h]
  have : (pre ++ c :: rest).take (pre.length + 1) = pre ++ [c] := by
    have e : pre ++ c :: rest = (pre ++ [c]) ++ rest := by simp
    rw [e, List.take_append_of_le_length (by simp)]
    exact List.take_of_length_le (by simp)
  rw [this, ← List.append_assoc, List.take_append_drop]

/-- When the loop ends, the spans with their semicolons re-inserted are the input
up to `start`, and `start` is within the input. -/
theorem scanLoop_terminated (sql : List Nat) :
    (scanLoop sql sql 0 ScanState.init).start ≤ sql.length ∧
      terminated (scanLoop sql sql 0 ScanState.init).spans
        = sql.take (scanLoop sql sql 0 ScanState.init).start := by
  have h := scanLoop_invariant sql
    (fun i st => st.start ≤ sql.length ∧ st.start ≤ i ∧ terminated st.spans = sql.take st.start)
    (by
      intro pre c rest st hsql ⟨h1, h2, h3⟩
      rcases loopBody_spans sql pre.length c rest.head? st with ⟨e1, e2, _⟩ | ⟨hc, e1, e2, _⟩
      · rw [e1, e2]
        exact ⟨h1, by omega, h3⟩
      · rw [e1, e2]
        refine ⟨by rw [hsql]; simp, le_refl _, ?_⟩
        unfold terminated at h3 ⊢
        rw [List.map_append, List.flatten_append, h3]
        simp only [List.map_cons, List.map_nil, List.flatten_cons, List.flatten_nil,
          List.append_nil]
        rw [hsql, ← hc]
        exact take_succ_of_append pre c rest st.start h2)
    (by
      intro i st ⟨h1, h2, h3⟩
      exact ⟨h1, by omega, h3⟩)
    sql.length sql [] ScanState.init (le_refl _) rfl
    (by simp [ScanState.init, terminated])
  obtain ⟨j, h1, _, h3⟩ := h
  exact ⟨h1, h3⟩

theorem separated_append (spans : List stmtSpan) (last : stmtSpan) :
    separated (spans ++ [last]) = terminated spans ++ last.text := by
  unfold separated terminated
  induction spans with
  | nil => simp [List.intercalate]
  | cons s spans ih =>
    cases spans with
    | nil => simp [List.intercalate]
    | cons s2 spans =>
      simp only [List.intercalate, List.cons_append, List.map_cons, List.intersperse,
        List.flatten_cons, List.append_eq, List.nil_append] at ih ⊢
      rw [ih]
      simp

/-- C4, as the code has it: the spans with a semicolon between them are the input
when a final span without semicolon is emitted; otherwise the spans, each followed
by its semicolon, are the input without its tail after the last top-level
semicolon, a tail that is empty or white space only. -/
theorem splitStatements_reconstruct (sql : List Nat) :
    separated (splitStatements sql) = sql ∨
      ∃ tail, WhiteSpaceOnly tail ∧ terminated (splitStatements sql) ++ tail = sql := by
  obtain ⟨h1, h2⟩ := scanLoop_terminated sql
  unfold splitStatements finish
  by_cases hlt : (scanLoop sql sql 0 ScanState.init).start < sql.length
  · by_cases ht : TrimSpace (sql.drop (scanLoop sql sql 0 ScanState.init).start) = []
    · right
      refine ⟨sql.drop (scanLoop sql sql 0 ScanState.init).start,
        (TrimSpace_eq_nil_iff _).1 ht, ?_⟩
      simp only [hlt, ht, if_true, ne_eq, not_true_eq_false, if_false]
      rw [h2, List.take_append_drop]
    · left
      simp only [hlt, ht, if_true, ne_eq, not_false_eq_true]
      rw [separated_append, h2]
      exact List.take_append_drop _ _
  · right
    refine ⟨[], WhiteSpaceOnly.nil, ?_⟩
    simp only [hlt, if_false, List.append_nil]
    rw [h2]
    exact List.take_of_length_le (by omega)

/-- C4 fails as stated: for "SELECT 1;\n" the only span is "SELECT 1", and neither
way of re-inserting the semicolons gives back the input. -/
theorem splitStatements_reconstruct_fails :
    splitStatements (bytes "SELECT 1;\n") = [{ text := bytes "SELECT 1", startLine := 1 }] ∧
    terminated (splitStatements (bytes "SELECT 1;\n")) ≠ bytes "SELECT 1;\n" ∧
    separated (splitStatements (bytes "SELECT 1;\n")) ≠ bytes "SELECT 1;\n" := by
  decide

/-- What one pass of the loop body does to the line counter, and when it skips the
next byte. -/
theorem loopBody_line (sql : List Nat) (i c : Nat) (next : Option Nat) (st : ScanState) :
    (c = 10 → (loopBody sql i c next st).1.line = st.line + 1 ∧
      (loopBody sql i c next st).2 = false) ∧
    (c ≠ 10 → (loopBody sql i c next st).1.line = st.line) ∧
    ((loopBody sql i c next st).2 = true →
      next = some 45 ∨ next = some 42 ∨ next = some 47 ∨ c = 92) := by
  by_cases h10 : c = 10
  · simp [loopBody, h10]
  by_cases hlc : st.inLineComment = true
  · simp [loopBody, h10, hlc]
  by_cases hbc : st.inBlockComment = true
  · by_cases hx : c = 42 ∧ next = some 47
    · simp [loopBody, hlc, hbc, hx]
    · simp [loopBody, h10, hlc, hbc, hx]
  by_cases hsq : st.inSingleQuote = true
  · by_cases h39 : c = 39
    · simp [loopBody, hlc, hbc, hsq, h39]
    · by_cases h92 : c = 92
      · simp [loopBody, hlc, hbc, hsq, h92]
      · simp [loopBody, h10, hlc, hbc, hsq, h39, h92]
  by_cases hdq : st.inDoubleQuote = true
  · by_cases h34 : c = 34
    · simp [loopBody, hlc, hbc, hsq, hdq, h34]
    · by_cases h92 : c = 92
      · simp [loopBody, hlc, hbc, hsq, hdq, h92]
      · simp [loopBody, h10, hlc, hbc, hsq, hdq, h34, h92]
  by_cases hbt : st.inBacktick = true
  · by_cases h96 : c = 96
    · simp [loopBody, hlc, hbc, hsq, hdq, hbt, h96]
    · simp [loopBody, h10, hlc, hbc, hsq, hdq, hbt, h96]
  by_cases h39 : c = 39
  · simp [loopBody, hlc, hbc, hsq, hdq, hbt, h39]
  by_cases h34 : c = 34
  · simp [loopBody, hlc, hbc, hsq, hdq, hbt, h34]
  by_cases h96 : c = 96
  · simp [loopBody, hlc, hbc, hsq, hdq, hbt, h96]
  by_cases h45 : c = 45
  · by_cases hn : next = some 45
    · simp [loopBody, hlc, hbc, hsq, hdq, hbt, h45, hn]
    · simp [loopBody, hlc, hbc, hsq, hdq, hbt, h45, hn]
  by_cases h47 : c = 47
  · by_cases hn : next = some 42
    · simp [loopBody, hlc, hbc, hsq, hdq, hbt, h47, hn]
    · simp [loopBody, hlc, hbc, hsq, hdq, hbt, h47, hn]
  by_cases h59 : c = 59
  · simp [loopBody, hlc, hbc, hsq, hdq, hbt, h59]
  · simp [loopBody, h10, hlc, hbc, hsq, hdq, hbt, h39, h34, h96, h45, h47, h59]

/-- A property of the index and the variables that every pass of the loop body
keeps, at the index the pass leaves, holds when the loop ends. -/
theorem scanLoop_invariant_at (sql : List Nat) (P : Nat → ScanState → Prop)
    (hstep : ∀ (pre : List Nat) (c : Nat) (rest : List Nat) (st : ScanState),
      sql = pre ++ c :: rest → P pre.length st →
        P (pre.length + (if (loopBody sql pre.length c rest.head? st).2 = true then 2 else 1))
          (loopBody sql pre.length c rest.head? st).1) :
    ∀ (n : Nat) (rest pre : List Nat) (i : Nat) (st : ScanState), rest.length ≤ n →
      sql = pre ++ rest → i = pre.length → P i st →
      ∃ j, P j (scanLoop sql rest i st) := by
  intro n
  induction n with
  | zero =>
    intro rest pre i st hn _ _ hP
    have : rest = [] := List.length_eq_zero.1 (by omega)
    subst this
    exact ⟨_, by rw [scanLoop_nil]; exact hP⟩
  | succ n ih =>
    intro rest pre i st hn hsql hi hP
    subst hi
    cases rest with
    | nil => exact ⟨_, by rw [scanLoop_nil]; exact hP⟩
    | cons c rest =>
      have h1 := hstep pre c rest st hsql hP
      have hsql1 : sql = (pre ++ [c]) ++ rest := by simp [hsql]
      simp only [List.length_cons] at hn
      rw [scanLoop]
      rcases hb : loopBody sql pre.length c rest.head? st with ⟨st1, skip⟩
      rw [hb] at h1
      cases skip with
      | false =>
        simp only [Bool.false_eq_true, if_false] at h1 ⊢
        exact ih rest (pre ++ [c]) _ st1 (by omega) hsql1 (by simp) h1
      | true =>
        simp only [if_true] at h1 ⊢
        cases rest with
        | nil => exact ⟨_, h1⟩
        | cons d rest2 =>
          simp only
          have hsql2 : sql = (pre ++ [c, d]) ++ rest2 := by simp [hsql]
          simp only [List.length_cons] at hn
          exact ih rest2 (pre ++ [c, d]) _ st1 (by omega) hsql2 (by simp) h1

theorem startOffsets_append (spans : List stmtSpan) (s : stmtSpan) :
    ∀ off, startOffsets (spans ++ [s]) off
      = startOffsets spans off ++ [off + (terminated spans).length] := by
  induction spans with
  | nil => intro off; simp [startOffsets, terminated]
  | cons t spans ih =>
    intro off
    have e : (terminated (t :: spans)).length = t.text.length + 1 + (terminated spans).length := by
      simp only [terminated, List.map_cons, List.flatten_cons, List.length_append,
        List.length_cons, List.length_nil]
    rw [List.cons_append, startOffsets, startOffsets, ih, e, List.cons_append]
    congr 3
    omega

theorem count_take_succ (pre : List Nat) (c : Nat) (rest : List Nat) :
    ((pre ++ c :: rest).take (pre.length + 1)).count 10
      = ((pre ++ c :: rest).take pre.length).count 10 + (if c = 10 then 1 else 0) := by
  have e1 : (pre ++ c :: rest).take pre.length = pre := List.take_left' rfl
  have e2 : (pre ++ c :: rest).take (pre.length + 1) = pre ++ [c] := by
    have e : pre ++ c :: rest = (pre ++ [c]) ++ rest := by simp
    rw [e]
    exact List.take_left' (by simp)
  rw [e1, e2, List.count_append]
  by_cases h : c = 10
  · simp [h]
  · rw [if_neg h, List.count_eq_zero.2 (by simp; omega : 10 ∉ [c])]

theorem count_take_succ_succ (pre : List Nat) (c : Nat) (rest : List Nat)
    (hc : c ≠ 10) (hr : rest.head? ≠ some 10) :
    ((pre ++ c :: rest).take (pre.length + 2)).count 10
      = ((pre ++ c :: rest).take pre.length).count 10 := by
  have e1 : (pre ++ c :: rest).take pre.length = pre := List.take_left' rfl
  rw [e1]
  cases rest with
  | nil =>
    rw [List.take_of_length_le (by simp), List.count_append,
      List.count_eq_zero.2 (by simp; omega : 10 ∉ [c])]
    rfl
  | cons d rest2 =>
    have hd : d ≠ 10 := fun h => hr (by simp [h])
    have e : pre ++ c :: d :: rest2 = (pre ++ [c, d]) ++ rest2 := by simp
    rw [e, List.take_left' (by simp), List.count_append,
      List.count_eq_zero.2 (by simp; omega : 10 ∉ [c, d])]
    rfl

/-- Line numbers on inputs where no backslash is directly followed by a newline:
every span starts on the line that is 1 plus the number of newlines before its
first byte. -/
theorem splitStatements_startLine (sql : List Nat) (hesc : ¬ [92, 10] <:+: sql) :
    (splitStatements sql).map stmtSpan.startLine = claimedLines sql := by
  have h := scanLoop_invariant_at sql
    (fun i st =>
      st.line = 1 + (sql.take i).count 10 ∧ st.start ≤ i ∧ st.start ≤ sql.length ∧
      st.startLine = 1 + (sql.take st.start).count 10 ∧
      terminated st.spans = sql.take st.start ∧
      st.spans.map stmtSpan.startLine
        = (startOffsets st.spans 0).map fun off => 1 + (sql.take off).count 10)
    (by
      intro pre c rest st hsql ⟨p1, p2, p3, p4, p5, p6⟩
      obtain ⟨l1, l2, l3⟩ := loopBody_line sql pre.length c rest.head? st
      have hidx : (1 + ((sql.take (pre.length + (if (loopBody sql pre.length c rest.head? st).2
          = true then 2 else 1))).count 10))
          = 1 + (sql.take pre.length).count 10 + (if c = 10 then 1 else 0) := by
        by_cases hskip : (loopBody sql pre.length c rest.head? st).2 = true
        · have hc : c ≠ 10 := fun hc => by
            have := (l1 hc).2
            rw [this] at hskip
            cases hskip
          have hr : rest.head? ≠ some 10 := by
            intro hr
            rcases l3 hskip with h | h | h | h
            · rw [hr] at h; cases h
            · rw [hr] at h; cases h
            · rw [hr] at h; cases h
            · cases rest with
              | nil => simp at hr
              | cons d rest2 =>
                simp only [List.head?_cons, Option.some.injEq] at hr
                subst hr
                subst h
                exact hesc ⟨pre, rest2, by simp [hsql]⟩
          rw [if_pos hskip, if_neg hc, hsql, count_take_succ_succ pre c rest hc hr]
          omega
        · rw [if_neg hskip, hsql, count_take_succ]
          omega
      have hline : (loopBody sql pre.length c rest.head? st).1.line
          = 1 + (sql.take pre.length).count 10 + (if c = 10 then 1 else 0) := by
        by_cases hc : c = 10
        · rw [(l1 hc).1, if_pos hc, p1]
        · rw [l2 hc, if_neg hc, p1]; omega
      refine ⟨by rw [hline, hidx], ?_⟩
      rcases loopBody_spans sql pre.length c rest.head? st with
        ⟨e1, e2, e3⟩ | ⟨hc, e1, e2, e3⟩
      · rw [e1, e2, e3]
        refine ⟨?_, p3, p4, p5, p6⟩
        split <;> omega
      · rw [e1, e2, e3]
        have hc10 : c ≠ 10 := by omega
        have hlen : pre.length + 1 ≤ sql.length := by rw [hsql]; simp
        refine ⟨by split <;> omega, hlen, ?_, ?_, ?_⟩
        · rw [p1, hsql, count_take_succ, if_neg hc10]
          omega
        · unfold terminated at p5 ⊢
          rw [List.map_append, List.flatten_append, p5]
          simp only [List.map_cons, List.map_nil, List.flatten_cons, List.flatten_nil,
            List.append_nil]
          rw [hsql, ← hc]
          exact take_succ_of_append pre c rest st.start p2
        · rw [List.map_append, p6, startOffsets_append, List.map_append, p5,
            List.length_take, Nat.min_eq_left p3]
          simp [p4])
    sql.length sql [] 0 ScanState.init (le_refl _) rfl rfl
    (by simp [ScanState.init, terminated, startOffsets])
  obtain ⟨j, -, -, q3, q4, q5, q6⟩ := h
  unfold claimedLines splitStatements finish
  by_cases hlt : (scanLoop sql sql 0 ScanState.init).start < sql.length
  · by_cases ht : TrimSpace (sql.drop (scanLoop sql sql 0 ScanState.init).start) = []
    · simp only [hlt, ht, if_true, ne_eq, not_true_eq_false, if_false]
      exact q6
    · simp only [hlt, ht, if_true, ne_eq, not_false_eq_true]
      rw [List.map_append, q6, startOffsets_append, List.map_append, q5,
        List.length_take, Nat.min_eq_left q3]
      simp [q4]
  · simp only [hlt, if_false]
    exact q6

theorem splitStatements_startLine_witness :
    (splitStatements (bytes "SELECT 'a\nb';\n/* c\n */ SELECT 2;\nSELECT 3")).map
        stmtSpan.startLine = [1, 2, 4] :=
  (splitStatements_startLine (bytes "SELECT 'a\nb';\n/* c\n */ SELECT 2;\nSELECT 3")
    (by decide)).trans (by decide)


/-! ## The scripting classifier -/

theorem hasPrefix_iff (s p : List Nat) : HasPrefix s p = true ↔ ∃ rest, s = p ++ rest := by
  unfold HasPrefix
  rw [beq_iff_eq]
  constructor
  · intro h
    exact ⟨s.drop p.length, by
      conv_lhs => rw [← List.take_append_drop p.length s]
      rw [h]⟩
  · rintro ⟨rest, rfl⟩
    simp

theorem keywordLoop_iff (upper : List Nat) (kws : List (List Nat)) :
    keywordLoop upper kws = true ↔
      ∃ kw ∈ kws, ∃ rest, upper = kw ++ rest ∧
        (rest = [] ∨ ∃ c r, rest = c :: r ∧ (c = 32 ∨ c = 9 ∨ c = 13 ∨ c = 10)) := by
  induction kws with
  | nil => simp [keywordLoop]
  | cons kw kws ih =>
    rw [keywordLoop]
    by_cases hp : HasPrefix upper kw = true
    · obtain ⟨rest, rfl⟩ := (hasPrefix_iff upper kw).1 hp
      simp only [hp, Bool.not_true, Bool.false_eq_true, if_false, List.mem_cons]
      cases rest with
      | nil =>
        simp
      | cons c r =>
        have hlen : ¬ ((kw ++ c :: r).length = kw.length) := by simp
        have hget : (kw ++ c :: r)[kw.length]? = some c := by
          rw [List.getElem?_append_right (le_refl _)]
          simp
        simp only [hlen, if_false, hget]
        by_cases hc : c = 32 ∨ c = 9 ∨ c = 10 ∨ c = 13
        · simp only [hc, if_true, true_iff]
          refine ⟨kw, Or.inl rfl, c :: r, rfl, Or.inr ⟨c, r, rfl, ?_⟩⟩
          omega
        · simp only [hc, if_false, ih]
          constructor
          · rintro ⟨k, hk, h⟩
            exact ⟨k, Or.inr hk, h⟩
          · rintro ⟨k, hk | hk, rest, h1, h2⟩
            · subst hk
              have : rest = c :: r := List.append_cancel_left h1.symm
              subst this
              rcases h2 with h2 | ⟨c2, r2, h2, h3⟩
              · cases h2
              · cases h2
                exact absurd (by omega) hc
            · exact ⟨k, hk, rest, h1, h2⟩
    · have hp2 : HasPrefix upper kw = false := by simpa using hp
      simp only [hp2, Bool.not_false, if_true, ih, List.mem_cons]
      constructor
      · rintro ⟨k, hk, h⟩
        exact ⟨k, Or.inr hk, h⟩
      · rintro ⟨k, hk | hk, rest, h1, h2⟩
        · subst hk
          exact absurd ((hasPrefix_iff upper k).2 ⟨rest, h1⟩) hp
        · exact ⟨k, hk, rest, h1, h2⟩

/-- C5: `isScriptingStatement s` is true exactly when the upper-cased form of `s`
begins with one of DECLARE, SET, ASSERT, IF, ELSEIF, ELSE, END and the keyword is
followed by the end of the text or by a space, tab, carriage return or line feed;
it is false for "SELECT IF(x, 1, 2) FROM t", "IFNULL(x, 0)", "SETTINGS" and
"IF(x)", and true for "set x = 1" and "Declare x INT64". -/
theorem isScriptingStatement_iff :
    (∀ (ToUpper : List Nat → List Nat) (s : List Nat),
      isScriptingStatement ToUpper s = true ↔ startsWithKeyword (ToUpper s)) ∧
    scriptingKeywords = [[68, 69, 67, 76, 65, 82, 69], [83, 69, 84], [65, 83, 83, 69, 82, 84],
      [73, 70], [69, 76, 83, 69, 73, 70], [69, 76, 83, 69], [69, 78, 68]] ∧
    isScriptingStatement asciiToUpper (bytes "SELECT IF(x, 1, 2) FROM t") = false ∧
    isScriptingStatement asciiToUpper (bytes "IFNULL(x, 0)") = false ∧
    isScriptingStatement asciiToUpper (bytes "SETTINGS") = false ∧
    isScriptingStatement asciiToUpper (bytes "IF(x)") = false ∧
    isScriptingStatement asciiToUpper (bytes "set x = 1") = true ∧
    isScriptingStatement asciiToUpper (bytes "Declare x INT64") = true := by
  refine ⟨fun up s => ?_, by decide, by decide, by decide, by decide, by decide, by decide,
    by decide⟩
  unfold isScriptingStatement startsWithKeyword
  exact keywordLoop_iff _ _

/-! ## The orchestrator -/

theorem lintStmt_step {Cat : Type} (E : Engine Cat) (catalog : Cat) (acc : Run)
    (sp : stmtSpan) :
    (lintStmt E catalog acc sp).results
        = acc.results ++ (diagnosticOf E catalog sp).toList ∧
      (lintStmt E catalog acc sp).analyzed
        = acc.analyzed ++ analyzedSpec E [sp] := by
  unfold lintStmt diagnosticOf analyzedSpec
  simp only [List.map_cons, List.map_nil]
  generalize TrimSpace sp.text = t
  by_cases h1 : t = []
  · simp [h1]
  · by_cases h2 : t = bytes ";"
    · simp [h2]
    · cases h3 : isScriptingStatement E.ToUpper t
      · cases hA : E.AnalyzeStatement t catalog <;> simp [h1, h2, h3, hA]
      · simp [h1, h2, h3]

theorem analyzedSpec_cons {Cat : Type} (E : Engine Cat) (sp : stmtSpan)
    (spans : List stmtSpan) :
    analyzedSpec E (sp :: spans) = analyzedSpec E [sp] ++ analyzedSpec E spans := by
  unfold analyzedSpec
  rw [← List.filter_append]
  rfl

theorem foldl_lintStmt {Cat : Type} (E : Engine Cat) (catalog : Cat) (spans : List stmtSpan) :
    ∀ acc : Run,
      (spans.foldl (lintStmt E catalog) acc).results
        = acc.results ++ spans.filterMap (diagnosticOf E catalog) ∧
      (spans.foldl (lintStmt E catalog) acc).analyzed
        = acc.analyzed ++ analyzedSpec E spans := by
  induction spans with
  | nil => intro acc; simp [analyzedSpec]
  | cons sp spans ih =>
    intro acc
    rw [List.foldl_cons]
    obtain ⟨ih1, ih2⟩ := ih (lintStmt E catalog acc sp)
    obtain ⟨s1, s2⟩ := lintStmt_step E catalog acc sp
    rw [ih1, ih2, s1, s2, analyzedSpec_cons E sp spans, List.filterMap_cons]
    constructor
    · cases diagnosticOf E catalog sp <;> simp
    · simp

/-- C6: when the script parser reports a syntax error `e`, `LintSQL` returns exactly
one diagnostic, with empty file, line 1, column 1, level "error" and message `e`,
with or without a catalog, and the statement analyzer is not invoked. -/
theorem lintSQL_syntax_error {Cat : Type} (E : Engine Cat) (l : Linter Cat) (sql e : List Nat)
    (h : E.ParseScript sql = some e) :
    LintSQL E l sql
        = [{ File := [], Line := 1, Column := 1, Level := bytes "error", Message := e }] ∧
      (lintRun E l sql).analyzed = [] := by
  simp [LintSQL, lintRun, h]

theorem lintSQL_syntax_error_witness :
    (asciiEngine (fun _ => some (bytes "Syntax error")) (fun _ (_ : Unit) => none)).ParseScript
        (bytes "SELECT * FORM t;") = some (bytes "Syntax error") ∧
    (LintSQL (asciiEngine (fun _ => some (bytes "Syntax error")) (fun _ (_ : Unit) => none))
        { catalog := some () } (bytes "SELECT * FORM t;")
        = [{ File := [], Line := 1, Column := 1, Level := bytes "error",
             Message := bytes "Syntax error" }] ∧
      (lintRun (asciiEngine (fun _ => some (bytes "Syntax error")) (fun _ (_ : Unit) => none))
        { catalog := some () } (bytes "SELECT * FORM t;")).analyzed = []) :=
  ⟨rfl, lintSQL_syntax_error _ _ _ _ rfl⟩

/-- C7: for a script that passes the script parser and a supplied catalog, the
diagnostics of `LintSQL` are, in span order, one diagnostic (line = the span's
`startLine`, column 1, level "error", the analyzer's error text, empty file) for
each span of `splitStatements` whose trimmed text is not empty, not ";", not a
scripting statement, and on whose trimmed text the analyzer fails; every such span
is analyzed, whether or not an earlier one failed. -/
theorem lintSQL_with_catalog {Cat : Type} (E : Engine Cat) (catalog : Cat) (sql : List Nat)
    (h : E.ParseScript sql = none) :
    LintSQL E { catalog := some catalog } sql
        = (splitStatements sql).filterMap (diagnosticOf E catalog) ∧
      (lintRun E { catalog := some catalog } sql).analyzed
        = analyzedSpec E (splitStatements sql) := by
  have := foldl_lintStmt E catalog (splitStatements sql) { results := [], analyzed := [] }
  simpa [LintSQL, lintRun, h] using this

theorem lintSQL_with_catalog_witness :
    (asciiEngine (fun _ => none)
        (fun t (_ : Unit) => if t = bytes "SELECT 2" then none else some t)).ParseScript
        (bytes "SELECT x;\nSET y = 1; SELECT 2;\nSELECT z") = none ∧
    LintSQL (asciiEngine (fun _ => none)
        (fun t (_ : Unit) => if t = bytes "SELECT 2" then none else some t))
        { catalog := some () } (bytes "SELECT x;\nSET y = 1; SELECT 2;\nSELECT z")
      = [{ File := [], Line := 1, Column := 1, Level := bytes "error",
           Message := bytes "SELECT x" },
         { File := [], Line := 2, Column := 1, Level := bytes "error",
           Message := bytes "SELECT z" }] :=
  ⟨rfl, (lintSQL_with_catalog _ () _ rfl).1.trans (by decide)⟩

/-- C8: for a script that passes the script parser, `LintSQL` on a linter without a
catalog returns no diagnostic, and never calls the statement analyzer. -/
theorem lintSQL_no_catalog {Cat : Type} (E : Engine Cat) (sql : List Nat)
    (h : E.ParseScript sql = none) :
    LintSQL E { catalog := none } sql = [] ∧
      (lintRun E { catalog := none } sql).analyzed = [] := by
  simp [LintSQL, lintRun, h]

theorem lintSQL_no_catalog_witness :
    (asciiEngine (fun _ => none) (fun t (_ : Unit) => some t)).ParseScript
        (bytes "SELECT 1 FROM no_such_table") = none ∧
    LintSQL (asciiEngine (fun _ => none) (fun t (_ : Unit) => some t))
        { catalog := none } (bytes "SELECT 1 FROM no_such_table") = [] :=
  ⟨rfl, (lintSQL_no_catalog _ _ rfl).1⟩

/-! ## Rendering of a diagnostic -/

theorem decValue_append (xs : List Nat) (d : Nat) :
    decValue (xs ++ [d]) = 10 * decValue xs + (d - 48) := by
  simp [decValue, List.foldl_append]

theorem decDigits_value : ∀ (fuel n : Nat), n < fuel → decValue (decDigits fuel n) = n := by
  intro fuel
  induction fuel with
  | zero => intro n h; omega
  | succ fuel ih =>
    intro n h
    rw [decDigits]
    by_cases h10 : n < 10
    · simp [h10, decValue]
    · rw [if_neg h10, decValue_append, ih (n / 10) (by omega)]
      omega

theorem decDigits_range : ∀ (fuel n : Nat), ∀ d ∈ decDigits fuel n, 48 ≤ d ∧ d ≤ 57 := by
  intro fuel
  induction fuel with
  | zero => intro n d h; simp [decDigits] at h
  | succ fuel ih =>
    intro n d h
    rw [decDigits] at h
    by_cases h10 : n < 10
    · rw [if_pos h10] at h
      simp only [List.mem_singleton] at h
      omega
    · rw [if_neg h10, List.mem_append, List.mem_singleton] at h
      rcases h with h | h
      · exact ih _ d h
      · omega

theorem decDigits_ne_nil (fuel n : Nat) : decDigits (fuel + 1) n ≠ [] := by
  rw [decDigits]
  split <;> simp

/-- C10: `Result.String` renders "file:line:column: level: message" when the file
is not empty and the line is positive, "file: level: message" when the file is not
empty and the line is not positive, and "level: message" when the file is empty;
line and column are printed in decimal (digits `0`..`9` whose value is the
magnitude of the number, after `-` for a negative number). -/
theorem result_String_format :
    (∀ r : Result, r.File ≠ [] → r.Line > 0 →
      r.String = r.File ++ bytes ":" ++ fmtInt r.Line ++ bytes ":" ++ fmtInt r.Column
        ++ bytes ": " ++ r.Level ++ bytes ": " ++ r.Message) ∧
    (∀ r : Result, r.File ≠ [] → r.Line ≤ 0 →
      r.String = r.File ++ bytes ": " ++ r.Level ++ bytes ": " ++ r.Message) ∧
    (∀ r : Result, r.File = [] → r.String = r.Level ++ bytes ": " ++ r.Message) ∧
    (∀ z : Int, ∃ ds : List Nat,
      fmtInt z = (if z < 0 then [45] else []) ++ ds ∧ ds ≠ [] ∧
        (∀ d ∈ ds, 48 ≤ d ∧ d ≤ 57) ∧ decValue ds = z.natAbs) := by
  refine ⟨?_, ?_, ?_, ?_⟩
  · intro r h1 h2
    simp [Result.String, h1, h2]
  · intro r h1 h2
    have h3 : ¬ (r.Line > 0) := by omega
    simp [Result.String, h1, h3]
  · intro r h1
    simp [Result.String, h1]
  · intro z
    cases z with
    | ofNat n =>
      refine ⟨decDigits (n + 1) n, ?_, decDigits_ne_nil _ _, decDigits_range _ _,
        decDigits_value _ _ (by omega)⟩
      simp [fmtInt]
    | negSucc n =>
      refine ⟨decDigits (n + 2) (n + 1), ?_, decDigits_ne_nil _ _, decDigits_range _ _, ?_⟩
      · have : Int.negSucc n < 0 := Int.negSucc_lt_zero n
        simp [fmtInt, this]
      · rw [decDigits_value _ _ (by omega)]
        rfl

theorem result_String_format_witness :
    Result.String { File := bytes "q.sql", Line := 12, Column := 1, Level := bytes "error",
                    Message := bytes "bad" } = bytes "q.sql:12:1: error: bad" ∧
    Result.String { File := bytes "q.sql", Line := 0, Column := 0, Level := bytes "error",
                    Message := bytes "bad" } = bytes "q.sql: error: bad" ∧
    Result.String { File := [], Line := 3, Column := 1, Level := bytes "error",
                    Message := bytes "bad" } = bytes "error: bad" :=
  ⟨(result_String_format.1 _ (by decide) (by decide)).trans (by decide),
   (result_String_format.2.1 _ (by decide) (by decide)).trans (by decide),
   (result_String_format.2.2.1 _ (by decide)).trans (by decide)⟩

/-! ## Line numbers -/

/-- C3 at a failing input: in SELECT r'''a\ (newline) b'''; (newline) SELECT 2;
(newline) SELECT 3 the newline after the backslash is skipped with the escaped
byte and not counted, so the start lines are 1, 1, 2 where 1 plus the number of
newlines before the spans gives 1, 2, 3. -/
theorem splitStatements_escaped_newline :
    (splitStatements (bytes "SELECT r'''a\\\nb''';\nSELECT 2;\nSELECT 3")).map stmtSpan.text
      = [bytes "SELECT r'''a\\\nb'''", bytes "\nSELECT 2", bytes "\nSELECT 3"] ∧
    (splitStatements (bytes "SELECT r'''a\\\nb''';\nSELECT 2;\nSELECT 3")).map
      stmtSpan.startLine = [1, 1, 2] ∧
    claimedLines (bytes "SELECT r'''a\\\nb''';\nSELECT 2;\nSELECT 3") = [1, 2, 3] := by
  decide

/-- C9 at a failing input: in DECLARE x INT64; (newline) -- set it (newline)
SET x = 1; the second span starts with a comment, is not classified as a
scripting statement, and its SET statement is passed to the analyzer. -/
theorem lintSQL_analyzes_commented_set {Cat : Type} (parse : List Nat → Option (List Nat))
    (analyze : List Nat → Cat → Option (List Nat)) (catalog : Cat)
    (h : parse (bytes "DECLARE x INT64;\n-- set it\nSET x = 1;") = none) :
    (lintRun (asciiEngine parse analyze) { catalog := some catalog }
        (bytes "DECLARE x INT64;\n-- set it\nSET x = 1;")).analyzed
      = [bytes "-- set it\nSET x = 1"] ∧
    ∀ msg, analyze (bytes "-- set it\nSET x = 1") catalog = some msg →
      LintSQL (asciiEngine parse analyze) { catalog := some catalog }
          (bytes "DECLARE x INT64;\n-- set it\nSET x = 1;")
        = [{ File := [], Line := 1, Column := 1, Level := bytes "error", Message := msg }] := by
  have hs : splitStatements (bytes "DECLARE x INT64;\n-- set it\nSET x = 1;")
      = [{ text := bytes "DECLARE x INT64", startLine := 1 },
         { text := bytes "\n-- set it\nSET x = 1", startLine := 1 }] := by decide
  have hf := foldl_lintStmt (asciiEngine parse analyze) catalog
    (splitStatements (bytes "DECLARE x INT64;\n-- set it\nSET x = 1;"))
    { results := [], analyzed := [] }
  have hrun : lintRun (asciiEngine parse analyze) { catalog := some catalog }
      (bytes "DECLARE x INT64;\n-- set it\nSET x = 1;")
      = (splitStatements (bytes "DECLARE x INT64;\n-- set it\nSET x = 1;")).foldl
          (lintStmt (asciiEngine parse analyze) catalog) { results := [], analyzed := [] } := by
    unfold lintRun
    have : (asciiEngine parse analyze).ParseScript
        (bytes "DECLARE x INT64;\n-- set it\nSET x = 1;") = none := h
    rw [this]
  have ht1 : TrimSpace (bytes "DECLARE x INT64") = bytes "DECLARE x INT64" := by decide
  have ht2 : TrimSpace (bytes "\n-- set it\nSET x = 1") = bytes "-- set it\nSET x = 1" := by
    decide
  have hk1 : isScriptingStatement asciiToUpper (bytes "DECLARE x INT64") = true := by decide
  have hk2 : isScriptingStatement asciiToUpper (bytes "-- set it\nSET x = 1") = false := by
    decide
  have hn1 : bytes "-- set it\nSET x = 1" ≠ [] := by decide
  have hn2 : bytes "-- set it\nSET x = 1" ≠ bytes ";" := by decide
  unfold LintSQL
  rw [hrun, hf.1, hf.2, hs]
  constructor
  · simp [analyzedSpec, asciiEngine, ht1, ht2, hk1, hk2, hn1, hn2]
  · intro msg hmsg
    simp [diagnosticOf, asciiEngine, ht1, ht2, hk1, hk2, hn1, hn2, hmsg]

theorem lintSQL_analyzes_commented_set_witness :
    (lintRun (asciiEngine (fun _ => none) (fun t (_ : Unit) => some t))
        { catalog := some () } (bytes "DECLARE x INT64;\n-- set it\nSET x = 1;")).analyzed
      = [bytes "-- set it\nSET x = 1"] :=
  (lintSQL_analyzes_commented_set (fun _ => none) (fun t (_ : Unit) => some t) () rfl).1

/-! ## Escapes inside quotes -/

theorem scan_escaped_single (t u : List Nat) (ht39 : 39 ∉ t) (ht92 : 92 ∉ t)
    (hu39 : 39 ∉ u) (hu92 : 92 ∉ u) (sql : List Nat) :
    scanLoop sql (bytes "SELECT '" ++ t ++ bytes "\\';" ++ u ++ bytes "'") 0 ScanState.init
      = { spans := [], line := 1 + t.count 10 + u.count 10, start := 0, startLine := 1,
          inSingleQuote := false, inDoubleQuote := false, inBacktick := false,
          inLineComment := false, inBlockComment := false } := by
  have e1 : bytes "SELECT '" = [83, 69, 76, 69, 67, 84, 32, 39] := by decide
  have e2 : bytes "\\';" = [92, 39, 59] := by decide
  have e3 : bytes "'" = [39] := by decide
  rw [e1, e2, e3]
  have e4 : [83, 69, 76, 69, 67, 84, 32, 39] ++ t ++ [92, 39, 59] ++ u ++ [39]
      = 83 :: 69 :: 76 :: 69 :: 67 :: 84 :: 32 :: 39 :: (t ++ 92 :: 39 :: ((59 :: u) ++ [39])) := by
    simp
  rw [e4]
  have e5 : scanLoop sql
      (83 :: 69 :: 76 :: 69 :: 67 :: 84 :: 32 :: 39 :: (t ++ 92 :: 39 :: ((59 :: u) ++ [39]))) 0
      ScanState.init = scanLoop sql (t ++ 92 :: 39 :: ((59 :: u) ++ [39])) 8
        { spans := [], line := 1, start := 0, startLine := 1,
          inSingleQuote := true, inDoubleQuote := false, inBacktick := false,
          inLineComment := false, inBlockComment := false } := by
    simp [scanLoop, loopBody, ScanState.init]
  have hu : 39 ∉ 59 :: u ∧ 92 ∉ 59 :: u := by
    simp only [List.mem_cons, not_or]
    exact ⟨⟨by decide, hu39⟩, ⟨by decide, hu92⟩⟩
  rw [e5, scan_single_quote sql t _ 8 [] 1 0 1 false false ht39 ht92,
    scanLoop_skip sql 92 39 _ _ _
      { spans := [], line := 1 + t.count 10, start := 0, startLine := 1,
        inSingleQuote := true, inDoubleQuote := false, inBacktick := false,
        inLineComment := false, inBlockComment := false } (by simp [loopBody]),
    scan_single_quote sql (59 :: u) [39] _ [] _ 0 1 false false hu.1 hu.2]
  have hc : List.count 10 (59 :: u) = List.count 10 u :=
    List.count_cons_of_ne (by decide) u
  rw [hc]
  simp [scanLoop, loopBody]

theorem scan_escaped_double (t u : List Nat) (ht34 : 34 ∉ t) (ht92 : 92 ∉ t)
    (hu34 : 34 ∉ u) (hu92 : 92 ∉ u) (sql : List Nat) :
    scanLoop sql (bytes "SELECT \"" ++ t ++ bytes "\\\";" ++ u ++ bytes "\"") 0 ScanState.init
      = { spans := [], line := 1 + t.count 10 + u.count 10, start := 0, startLine := 1,
          inSingleQuote := false, inDoubleQuote := false, inBacktick := false,
          inLineComment := false, inBlockComment := false } := by
  have e1 : bytes "SELECT \"" = [83, 69, 76, 69, 67, 84, 32, 34] := by decide
  have e2 : bytes "\\\";" = [92, 34, 59] := by decide
  have e3 : bytes "\"" = [34] := by decide
  rw [e1, e2, e3]
  have e4 : [83, 69, 76, 69, 67, 84, 32, 34] ++ t ++ [92, 34, 59] ++ u ++ [34]
      = 83 :: 69 :: 76 :: 69 :: 67 :: 84 :: 32 :: 34 :: (t ++ 92 :: 34 :: ((59 :: u) ++ [34])) := by
    simp
  rw [e4]
  have e5 : scanLoop sql
      (83 :: 69 :: 76 :: 69 :: 67 :: 84 :: 32 :: 34 :: (t ++ 92 :: 34 :: ((59 :: u) ++ [34]))) 0
      ScanState.init = scanLoop sql (t ++ 92 :: 34 :: ((59 :: u) ++ [34])) 8
        { spans := [], line := 1, start := 0, startLine := 1,
          inSingleQuote := false, inDoubleQuote := true, inBacktick := false,
          inLineComment := false, inBlockComment := false } := by
    simp [scanLoop, loopBody, ScanState.init]
  have hu : 34 ∉ 59 :: u ∧ 92 ∉ 59 :: u := by
    simp only [List.mem_cons, not_or]
    exact ⟨⟨by decide, hu34⟩, ⟨by decide, hu92⟩⟩
  rw [e5, scan_double_quote sql t _ 8 [] 1 0 1 false ht34 ht92,
    scanLoop_skip sql 92 34 _ _ _
      { spans := [], line := 1 + t.count 10, start := 0, startLine := 1,
        inSingleQuote := false, inDoubleQuote := true, inBacktick := false,
        inLineComment := false, inBlockComment := false } (by simp [loopBody]),
    scan_double_quote sql (59 :: u) [34] _ [] _ 0 1 false hu.1 hu.2]
  have hc : List.count 10 (59 :: u) = List.count 10 u :=
    List.count_cons_of_ne (by decide) u
  rw [hc]
  simp [scanLoop, loopBody]

theorem scan_backslash_backtick (t : List Nat) (ht96 : 96 ∉ t) (sql : List Nat) :
    scanLoop sql (bytes "SELECT `" ++ t ++ bytes "\\`;SELECT 2") 0 ScanState.init
      = { spans := [{ text := slice sql 0 (8 + t.length + 2), startLine := 1 }],
          line := 1 + t.count 10, start := 8 + t.length + 3, startLine := 1 + t.count 10,
          inSingleQuote := false, inDoubleQuote := false, inBacktick := false,
          inLineComment := false, inBlockComment := false } := by
  have e1 : bytes "SELECT `" = [83, 69, 76, 69, 67, 84, 32, 96] := by decide
  have e2 : bytes "\\`;SELECT 2" = [92, 96, 59, 83, 69, 76, 69, 67, 84, 32, 50] := by decide
  rw [e1, e2]
  have e4 : [83, 69, 76, 69, 67, 84, 32, 96] ++ t ++ [92, 96, 59, 83, 69, 76, 69, 67, 84, 32, 50]
      = 83 :: 69 :: 76 :: 69 :: 67 :: 84 :: 32 :: 96 ::
          ((t ++ [92]) ++ [96, 59, 83, 69, 76, 69, 67, 84, 32, 50]) := by
    simp
  rw [e4]
  have e5 : scanLoop sql
      (83 :: 69 :: 76 :: 69 :: 67 :: 84 :: 32 :: 96 ::
        ((t ++ [92]) ++ [96, 59, 83, 69, 76, 69, 67, 84, 32, 50])) 0
      ScanState.init = scanLoop sql ((t ++ [92]) ++ [96, 59, 83, 69, 76, 69, 67, 84, 32, 50]) 8
        { spans := [], line := 1, start := 0, startLine := 1,
          inSingleQuote := false, inDoubleQuote := false, inBacktick := true,
          inLineComment := false, inBlockComment := false } := by
    simp [scanLoop, loopBody, ScanState.init]
  have ht : 96 ∉ t ++ [92] := by
    simp only [List.mem_append, List.mem_singleton, not_or]
    exact ⟨ht96, by decide⟩
  rw [e5, scan_backtick sql (t ++ [92]) _ 8 [] 1 0 1 ht]
  have hc : List.count 10 (t ++ [92]) = List.count 10 t := by
    rw [List.count_append, List.count_eq_zero.2 (by decide : 10 ∉ [92])]
    rfl
  have hl : 8 + (t ++ [92]).length = 8 + t.length + 1 := by simp; omega
  rw [hc, hl]
  simp [scanLoop, loopBody]

/-- C11: in a single- or double-quoted string a backslash skips the next byte, so
an escaped quote does not close the string; in a backtick-quoted identifier a
backslash has no effect.  For `t` and `u` without quote characters and without
backslash, the input SELECT, quote, t, backslash, quote, semicolon, u, quote is
returned as one span, the whole input (single and double quotes), while SELECT,
backtick, t, backslash, backtick, `;SELECT 2` is returned as two spans, the
first ending at the second backtick. -/
theorem splitStatements_escape :
    (∀ t u : List Nat, 39 ∉ t → 34 ∉ t → 96 ∉ t → 92 ∉ t →
      39 ∉ u → 34 ∉ u → 96 ∉ u → 92 ∉ u →
      splitStatements (bytes "SELECT '" ++ t ++ bytes "\\';" ++ u ++ bytes "'")
        = [{ text := bytes "SELECT '" ++ t ++ bytes "\\';" ++ u ++ bytes "'",
             startLine := 1 }]) ∧
    (∀ t u : List Nat, 39 ∉ t → 34 ∉ t → 96 ∉ t → 92 ∉ t →
      39 ∉ u → 34 ∉ u → 96 ∉ u → 92 ∉ u →
      splitStatements (bytes "SELECT \"" ++ t ++ bytes "\\\";" ++ u ++ bytes "\"")
        = [{ text := bytes "SELECT \"" ++ t ++ bytes "\\\";" ++ u ++ bytes "\"",
             startLine := 1 }]) ∧
    (∀ t : List Nat, 39 ∉ t → 34 ∉ t → 96 ∉ t → 92 ∉ t →
      splitStatements (bytes "SELECT `" ++ t ++ bytes "\\`;SELECT 2")
        = [{ text := bytes "SELECT `" ++ t ++ bytes "\\`", startLine := 1 },
           { text := bytes "SELECT 2", startLine := 1 + t.count 10 }]) := by
  refine ⟨?_, ?_, ?_⟩
  · intro t u a1 _ _ a4 b1 _ _ b4
    have hm : 83 ∈ bytes "SELECT '" ++ t ++ bytes "\\';" ++ u ++ bytes "'" := by
      have e1 : bytes "SELECT '" = [83, 69, 76, 69, 67, 84, 32, 39] := by decide
      simp [e1]
    apply splitStatements_whole _ 83 hm (by omega) (by omega) <;>
      rw [scan_escaped_single t u a1 a4 b1 b4]
  · intro t u _ a2 _ a4 _ b2 _ b4
    have hm : 83 ∈ bytes "SELECT \"" ++ t ++ bytes "\\\";" ++ u ++ bytes "\"" := by
      have e1 : bytes "SELECT \"" = [83, 69, 76, 69, 67, 84, 32, 34] := by decide
      simp [e1]
    apply splitStatements_whole _ 83 hm (by omega) (by omega) <;>
      rw [scan_escaped_double t u a2 a4 b2 b4]
  · intro t _ _ a3 _
    have e1 : bytes "SELECT `" = [83, 69, 76, 69, 67, 84, 32, 96] := by decide
    have e2 : bytes "\\`;SELECT 2" = [92, 96, 59, 83, 69, 76, 69, 67, 84, 32, 50] := by decide
    have e3 : bytes "\\`" = [92, 96] := by decide
    have e4 : bytes "SELECT 2" = [83, 69, 76, 69, 67, 84, 32, 50] := by decide
    have hsql : bytes "SELECT `" ++ t ++ bytes "\\`;SELECT 2"
        = (bytes "SELECT `" ++ t ++ bytes "\\`") ++ 59 :: bytes "SELECT 2" := by
      rw [e1, e2, e3, e4]; simp
    have hlen : (bytes "SELECT `" ++ t ++ bytes "\\`").length = 8 + t.length + 2 := by
      rw [e1, e3]; simp; omega
    have hslice : slice (bytes "SELECT `" ++ t ++ bytes "\\`;SELECT 2") 0 (8 + t.length + 2)
        = bytes "SELECT `" ++ t ++ bytes "\\`" := by
      rw [hsql, ← hlen, slice_append _ _ 0 (Nat.zero_le _)]
      rfl
    have hdrop : (bytes "SELECT `" ++ t ++ bytes "\\`;SELECT 2").drop (8 + t.length + 3)
        = bytes "SELECT 2" := by
      have h2 : bytes "SELECT `" ++ t ++ bytes "\\`;SELECT 2"
          = (bytes "SELECT `" ++ t ++ bytes "\\`" ++ [59]) ++ bytes "SELECT 2" := by
        rw [hsql]; simp
      rw [h2]
      exact List.drop_left' (by rw [List.length_append, hlen]; rfl)
    have hlt : 8 + t.length + 3 < (bytes "SELECT `" ++ t ++ bytes "\\`;SELECT 2").length := by
      rw [e1, e2]; simp; omega
    have htrim : TrimSpace (bytes "SELECT 2") ≠ [] := by decide
    unfold splitStatements finish
    rw [scan_backslash_backtick t a3]
    simp only [hlt, if_true, hdrop, htrim, ne_eq, not_false_eq_true, hslice, List.singleton_append]

theorem splitStatements_escape_witness :
    splitStatements (bytes "SELECT 'a\\';b'")
      = [{ text := bytes "SELECT 'a\\';b'", startLine := 1 }] ∧
    splitStatements (bytes "SELECT \"a\\\";b\"")
      = [{ text := bytes "SELECT \"a\\\";b\"", startLine := 1 }] ∧
    splitStatements (bytes "SELECT `a\nb\\`;SELECT 2")
      = [{ text := bytes "SELECT `a\nb\\`", startLine := 1 },
         { text := bytes "SELECT 2", startLine := 2 }] :=
  ⟨splitStatements_escape.1 (bytes "a") (bytes "b") (by decide) (by decide) (by decide)
      (by decide) (by decide) (by decide) (by decide) (by decide),
   splitStatements_escape.2.1 (bytes "a") (bytes "b") (by decide) (by decide) (by decide)
      (by decide) (by decide) (by decide) (by decide) (by decide),
   splitStatements_escape.2.2 (bytes "a\nb") (by decide) (by decide) (by decide) (by decide)⟩

/-! ## Linting a file -/

/-- C12: when the file is read, `LintFile` returns the diagnostics of `LintSQL` on
its content, in the same order, each with `File` set to the path and with line,
column, level and message unchanged, and no error; when the read fails it
returns an error and no diagnostics, and `LintSQL` is not called. -/
theorem lintFile_spec {Cat : Type} (E : Engine Cat)
    (ReadFile : List Nat → Except (List Nat) (List Nat)) (l : Linter Cat) (path : List Nat) :
    (∀ data, ReadFile path = Except.ok data →
      (LintFile E ReadFile l path).err = none ∧
      (LintFile E ReadFile l path).linted = [data] ∧
      (LintFile E ReadFile l path).results.length = (LintSQL E l data).length ∧
      (LintFile E ReadFile l path).results.map Result.File
        = List.replicate (LintSQL E l data).length path ∧
      (LintFile E ReadFile l path).results.map
          (fun r => (r.Line, r.Column, r.Level, r.Message))
        = (LintSQL E l data).map fun r => (r.Line, r.Column, r.Level, r.Message)) ∧
    (∀ e, ReadFile path = Except.error e →
      (LintFile E ReadFile l path).err = some (bytes "reading " ++ path ++ bytes ": " ++ e) ∧
      (LintFile E ReadFile l path).results = [] ∧
      (LintFile E ReadFile l path).linted = []) := by
  constructor
  · intro data h
    unfold LintFile
    rw [h]
    refine ⟨rfl, rfl, by simp, ?_, ?_⟩
    · simp only [List.map_map]
      rw [List.eq_replicate_iff]
      constructor
      · simp
      · intro b hb
        simp only [List.mem_map, Function.comp] at hb
        obtain ⟨r, _, hr⟩ := hb
        exact hr.symm
    · simp only [List.map_map]
      rfl
  · intro e h
    unfold LintFile
    rw [h]
    exact ⟨rfl, rfl, rfl⟩

theorem lintFile_spec_witness :
    (LintFile (asciiEngine (fun _ => none) (fun t (_ : Unit) => some t))
        (fun p => if p = bytes "q.sql" then Except.ok (bytes "SELECT x;\nSELECT y")
          else Except.error (bytes "no such file"))
        { catalog := some () } (bytes "q.sql")).results.map Result.File
      = [bytes "q.sql", bytes "q.sql"] ∧
    (LintFile (asciiEngine (fun _ => none) (fun t (_ : Unit) => some t))
        (fun p => if p = bytes "q.sql" then Except.ok (bytes "SELECT x;\nSELECT y")
          else Except.error (bytes "no such file"))
        { catalog := some () } (bytes "r.sql")).err
      = some (bytes "reading r.sql: no such file") :=
  ⟨((lintFile_spec (asciiEngine (fun _ => none) (fun t (_ : Unit) => some t))
      (fun p => if p = bytes "q.sql" then Except.ok (bytes "SELECT x;\nSELECT y")
        else Except.error (bytes "no such file"))
      { catalog := some () } (bytes "q.sql")).1 (bytes "SELECT x;\nSELECT y")
      (if_pos rfl)).2.2.2.1.trans (by decide),
   ((lintFile_spec (asciiEngine (fun _ => none) (fun t (_ : Unit) => some t))
      (fun p => if p = bytes "q.sql" then Except.ok (bytes "SELECT x;\nSELECT y")
        else Except.error (bytes "no such file"))
      { catalog := some () } (bytes "r.sql")).2 (bytes "no such file")
      (if_neg (by decide))).1.trans (by decide)⟩

/-! ## Order of the line numbers -/

/-- When the loop ends, the start lines recorded so far are between 1 and the line
counter, in non-decreasing order, and the line counter has counted at most the
newlines of the input. -/
theorem scanLoop_lines (sql : List Nat) :
    1 ≤ (scanLoop sql sql 0 ScanState.init).startLine ∧
    (scanLoop sql sql 0 ScanState.init).startLine ≤ 1 + sql.count 10 ∧
    (∀ s ∈ (scanLoop sql sql 0 ScanState.init).spans,
      1 ≤ s.startLine ∧ s.startLine ≤ (scanLoop sql sql 0 ScanState.init).startLine) ∧
    List.Pairwise (· ≤ ·)
      ((scanLoop sql sql 0 ScanState.init).spans.map stmtSpan.startLine) := by
  have h := scanLoop_invariant sql
    (fun i st =>
      1 ≤ st.startLine ∧ st.startLine ≤ st.line ∧ st.line ≤ 1 + (sql.take i).count 10 ∧
      (∀ s ∈ st.spans, 1 ≤ s.startLine ∧ s.startLine ≤ st.startLine) ∧
      List.Pairwise (· ≤ ·) (st.spans.map stmtSpan.startLine))
    (by
      intro pre c rest st hsql ⟨p1, p2, p3, p4, p5⟩
      obtain ⟨l1, l2, -⟩ := loopBody_line sql pre.length c rest.head? st
      have hcount := count_take_succ pre c rest
      rw [← hsql] at hcount
      have hline : st.line ≤ (loopBody sql pre.length c rest.head? st).1.line ∧
          (loopBody sql pre.length c rest.head? st).1.line
            ≤ 1 + (sql.take (pre.length + 1)).count 10 := by
        by_cases hc : c = 10
        · rw [(l1 hc).1, hcount, if_pos hc]
          omega
        · rw [l2 hc, hcount, if_neg hc]
          omega
      rcases loopBody_spans sql pre.length c rest.head? st with
        ⟨e1, _, e3⟩ | ⟨hc, e1, _, e3⟩
      · rw [e1, e3]
        exact ⟨p1, by omega, hline.2, p4, p5⟩
      · have hc10 : c ≠ 10 := by omega
        have hl := l2 hc10
        rw [e1, e3]
        refine ⟨by omega, by omega, hline.2, ?_, ?_⟩
        · intro s hs
          rcases List.mem_append.1 hs with hs | hs
          · have := p4 s hs
            omega
          · have : s.startLine = st.startLine := by
              rw [List.mem_singleton.1 hs]
            omega
        · rw [List.map_append, List.pairwise_append]
          refine ⟨p5, by simp, ?_⟩
          intro a ha b hb
          obtain ⟨s, hs, rfl⟩ := List.mem_map.1 ha
          have hb2 : b = st.startLine := by simpa using hb
          rw [hb2]
          exact (p4 s hs).2)
    (by
      intro i st ⟨p1, p2, p3, p4, p5⟩
      have : (sql.take i).count 10 ≤ (sql.take (i + 1)).count 10 :=
        (List.take_sublist_take_left sql (Nat.le_succ i)).count_le 10
      exact ⟨p1, p2, by omega, p4, p5⟩)
    sql.length sql [] ScanState.init (le_refl _) rfl
    (by simp [ScanState.init])
  obtain ⟨j, q1, q2, q3, q4, q5⟩ := h
  have := (List.take_sublist j sql).count_le 10
  simp only [List.length_nil] at q1 q2 q3 q4 q5
  exact ⟨q1, by omega, q4, q5⟩

theorem diagnosticOf_line {Cat : Type} (E : Engine Cat) (catalog : Cat) (sp : stmtSpan)
    (r : Result) (h : r ∈ diagnosticOf E catalog sp) : r.Line = sp.startLine := by
  unfold diagnosticOf at h
  split at h
  · simp only [Option.mem_def, Option.map_eq_some'] at h
    obtain ⟨msg, _, rfl⟩ := h
    rfl
  · cases h

/-- C15: the start lines of the spans of `splitStatements` are at least 1, at most
1 plus the number of newlines of the input, and non-decreasing in span order;
the lines of the diagnostics of `LintSQL` are non-decreasing, for every script,
with or without a catalog. -/
theorem splitStatements_lines_ordered :
    (∀ sql : List Nat,
      (∀ s ∈ splitStatements sql, 1 ≤ s.startLine ∧ s.startLine ≤ 1 + sql.count 10) ∧
      List.Pairwise (· ≤ ·) ((splitStatements sql).map stmtSpan.startLine)) ∧
    (∀ (Cat : Type) (E : Engine Cat) (l : Linter Cat) (sql : List Nat),
      List.Pairwise (· ≤ ·) ((LintSQL E l sql).map Result.Line)) := by
  have hsplit : ∀ sql : List Nat,
      (∀ s ∈ splitStatements sql, 1 ≤ s.startLine ∧ s.startLine ≤ 1 + sql.count 10) ∧
      List.Pairwise (· ≤ ·) ((splitStatements sql).map stmtSpan.startLine) := by
    intro sql
    obtain ⟨q1, q2, q3, q4⟩ := scanLoop_lines sql
    have hold : ∀ s ∈ (scanLoop sql sql 0 ScanState.init).spans,
        1 ≤ s.startLine ∧ s.startLine ≤ 1 + sql.count 10 := by
      intro s hs
      have := q3 s hs
      omega
    unfold splitStatements finish
    split
    · split
      · constructor
        · intro s hs
          rcases List.mem_append.1 hs with hs | hs
          · exact hold s hs
          · rw [List.mem_singleton.1 hs]
            exact ⟨q1, q2⟩
        · rw [List.map_append, List.pairwise_append]
          refine ⟨q4, by simp, ?_⟩
          intro a ha b hb
          obtain ⟨s, hs, rfl⟩ := List.mem_map.1 ha
          have hb2 : b = (scanLoop sql sql 0 ScanState.init).startLine := by simpa using hb
          rw [hb2]
          exact (q3 s hs).2
      · exact ⟨hold, q4⟩
    · exact ⟨hold, q4⟩
  refine ⟨hsplit, ?_⟩
  intro Cat E l sql
  unfold LintSQL lintRun
  cases hp : E.ParseScript sql with
  | some err => simp
  | none =>
    cases hc : l.catalog with
    | none => simp
    | some catalog =>
      simp only
      rw [(foldl_lintStmt E catalog (splitStatements sql) { results := [], analyzed := [] }).1,
        List.nil_append, List.pairwise_map]
      have hp2 : List.Pairwise (fun a b : stmtSpan => a.startLine ≤ b.startLine)
          (splitStatements sql) := List.pairwise_map.1 (hsplit sql).2
      refine List.Pairwise.filterMap (diagnosticOf E catalog) ?_ hp2
      intro a a' haa b hb b' hb'
      rw [diagnosticOf_line E catalog a b hb, diagnosticOf_line E catalog a' b' hb']
      exact_mod_cast haa

/-! ## Statements inside a scripting block -/

theorem noOpeners_append_inert (a b : List Nat)
    (ha : ∀ x ∈ a, x ≠ 39 ∧ x ≠ 34 ∧ x ≠ 96 ∧ x ≠ 45 ∧ x ≠ 47) (hb : noOpeners b) :
    noOpeners (a ++ b) := by
  induction a with
  | nil => simpa using hb
  | cons x a ih =>
    obtain ⟨h1, h2, h3, h4, h5⟩ := ha x (List.mem_cons_self _ _)
    exact ⟨h1, h2, h3, fun h => absurd h h4, fun h => absurd h h5,
      ih (fun y hy => ha y (List.mem_cons_of_mem _ hy))⟩

theorem noOpeners_append (a b : List Nat) (ha : noOpeners a) (hb : noOpeners b)
    (h45 : b.head? ≠ some 45) (h42 : b.head? ≠ some 42) : noOpeners (a ++ b) := by
  induction a with
  | nil => simpa using hb
  | cons x a ih =>
    obtain ⟨h1, h2, h3, h4, h5, h6⟩ := ha
    refine ⟨h1, h2, h3, ?_, ?_, ih h6⟩
    · intro hx
      cases a with
      | nil => simpa using h45
      | cons y a => simpa using h4 hx
    · intro hx
      cases a with
      | nil => simpa using h42
      | cons y a => simpa using h5 hx

theorem not_printable_of_whiteSpaceOnly {w : List Nat} (h : WhiteSpaceOnly w) :
    ∀ b ∈ w, b < 33 ∨ 128 ≤ b := by
  induction h with
  | nil => intro b hb; simp at hb
  | one a r h _ ih =>
    intro b hb
    rcases List.mem_cons.1 hb with rfl | hb
    · exact Or.inl (isSpace1_lt h)
    · exact ih b hb
  | two a c r h _ ih =>
    intro b hb
    have := isSpace2_ge h
    rcases List.mem_cons.1 hb with rfl | hb
    · exact Or.inr this.1
    · rcases List.mem_cons.1 hb with rfl | hb
      · exact Or.inr this.2
      · exact ih b hb
  | three a c d r h _ ih =>
    intro b hb
    have := isSpace3_ge h
    rcases List.mem_cons.1 hb with rfl | hb
    · exact Or.inr this.1
    · rcases List.mem_cons.1 hb with rfl | hb
      · exact Or.inr this.2.1
      · rcases List.mem_cons.1 hb with rfl | hb
        · exact Or.inr this.2.2
        · exact ih b hb

/-- What `strings.TrimSpace` returns: the input without a white-space-only beginning
and a white-space-only end. -/
theorem TrimSpace_spec (t : List Nat) :
    ∃ w1 w2, WhiteSpaceOnly w1 ∧ WhiteSpaceOnly w2 ∧ TrimLeft t = TrimSpace t ++ w2 ∧
      t = w1 ++ TrimLeft t := by
  obtain ⟨⟨w1, hw1, e1⟩, -⟩ := TrimLeft_spec _ t (le_refl _)
  obtain ⟨v, hv, e2⟩ := TrimLeftRev_spec _ (TrimLeft t).reverse (le_refl _)
  refine ⟨w1, v.reverse, hw1, hv, ?_, e1⟩
  have := congrArg List.reverse e2
  rw [List.reverse_reverse, List.reverse_append] at this
  exact this

/-- Trimming a text that starts with two printable ASCII bytes and a space keeps
the two bytes, followed by nothing or by the space. -/
theorem TrimSpace_keeps_head (a b : Nat) (Y : List Nat) (ha : 33 ≤ a ∧ a < 128)
    (hb : 33 ≤ b ∧ b < 128) :
    ∃ tail, TrimSpace (a :: b :: 32 :: Y) = a :: b :: tail ∧
      (tail = [] ∨ ∃ tail2, tail = 32 :: tail2) := by
  have h1 : ¬ isSpace1 a = true := fun h => by have := isSpace1_lt h; omega
  have h2 : ¬ isSpace2 a b = true := fun h => by have := isSpace2_ge h; omega
  have h3 : ¬ isSpace3 a b 32 = true := fun h => by have := isSpace3_ge h; omega
  have hl : TrimLeft (a :: b :: 32 :: Y) = a :: b :: 32 :: Y := TrimLeft_keep3 a b 32 Y h1 h2 h3
  obtain ⟨w1, w2, -, hw2, e1, -⟩ := TrimSpace_spec (a :: b :: 32 :: Y)
  rw [hl] at e1
  have hnp := not_printable_of_whiteSpaceOnly hw2
  rcases hr : TrimSpace (a :: b :: 32 :: Y) with _ | ⟨x, _ | ⟨y, r⟩⟩
  · rw [hr, List.nil_append] at e1
    have := hnp a (by rw [← e1]; exact List.mem_cons_self _ _)
    omega
  · rw [hr] at e1
    simp only [List.singleton_append, List.cons.injEq] at e1
    have := hnp b (by rw [← e1.2]; exact List.mem_cons_self _ _)
    omega
  · rw [hr] at e1
    simp only [List.cons_append, List.cons.injEq] at e1
    obtain ⟨rfl, rfl, e3⟩ := e1
    refine ⟨r, rfl, ?_⟩
    cases r with
    | nil => exact Or.inl rfl
    | cons z r2 =>
      simp only [List.cons_append, List.cons.injEq] at e3
      exact Or.inr ⟨r2, by rw [e3.1]⟩

theorem asciiToUpper_keeps : UpperKeepsASCII asciiToUpper := by
  refine ⟨rfl, ?_⟩
  intro a s _
  simp [asciiToUpper]

/-- C16: for `c` and `s` without semicolon, quote character and comment opener, if
the script `IF c THEN s; END IF;` passes the script parser then `LintSQL` with
a catalog returns no diagnostic and calls the analyzer on nothing: `s` belongs to
a span that starts with IF, and the other span starts with END. -/
theorem lintSQL_if_block {Cat : Type} (E : Engine Cat) (hUp : UpperKeepsASCII E.ToUpper)
    (catalog : Cat) (c s : List Nat)
    (hc : 59 ∉ c ∧ 39 ∉ c ∧ 34 ∉ c ∧ 96 ∉ c ∧ ¬ [45, 45] <:+: c ∧ ¬ [47, 42] <:+: c)
    (hs : 59 ∉ s ∧ 39 ∉ s ∧ 34 ∉ s ∧ 96 ∉ s ∧ ¬ [45, 45] <:+: s ∧ ¬ [47, 42] <:+: s)
    (hparse : E.ParseScript (bytes "IF " ++ c ++ bytes " THEN " ++ s ++ bytes "; END IF;")
      = none) :
    LintSQL E { catalog := some catalog }
        (bytes "IF " ++ c ++ bytes " THEN " ++ s ++ bytes "; END IF;") = [] ∧
    (lintRun E { catalog := some catalog }
        (bytes "IF " ++ c ++ bytes " THEN " ++ s ++ bytes "; END IF;")).analyzed = [] := by
  obtain ⟨c59, c39, c34, c96, c45, c47⟩ := hc
  obtain ⟨s59, s39, s34, s96, s45, s47⟩ := hs
  have e1 : bytes "IF " = [73, 70, 32] := by decide
  have e2 : bytes " THEN " = [32, 84, 72, 69, 78, 32] := by decide
  have e3 : bytes "; END IF;" = 59 :: bytes " END IF;" := by decide
  -- the script, as the first piece, a semicolon and the rest
  have hscript : bytes "IF " ++ c ++ bytes " THEN " ++ s ++ bytes "; END IF;"
      = (bytes "IF " ++ c ++ bytes " THEN " ++ s) ++ 59 :: bytes " END IF;" := by
    rw [e3]
  have hcur : 59 ∉ bytes "IF " ++ c ++ bytes " THEN " ++ s := by
    rw [e1, e2]
    simp only [List.mem_append, List.mem_cons, List.not_mem_nil, not_or]
    refine ⟨⟨⟨?_, c59⟩, ?_⟩, s59⟩ <;> decide
  have hclean : noOpeners (bytes "IF " ++ c ++ bytes " THEN " ++ s ++ bytes "; END IF;") := by
    have h4 : noOpeners (bytes "; END IF;") :=
      noOpeners_of _ (by decide) (by decide) (by decide) (by decide) (by decide)
    have h3 : noOpeners (s ++ bytes "; END IF;") :=
      noOpeners_append s _ (noOpeners_of s s39 s34 s96 s45 s47) h4 (by decide) (by decide)
    have h2 : noOpeners (bytes " THEN " ++ (s ++ bytes "; END IF;")) :=
      noOpeners_append_inert _ _ (by decide) h3
    have h1 : noOpeners (c ++ (bytes " THEN " ++ (s ++ bytes "; END IF;"))) :=
      noOpeners_append c _ (noOpeners_of c c39 c34 c96 c45 c47) h2
        (by rw [e2]; simp) (by rw [e2]; simp)
    have h0 := noOpeners_append_inert (bytes "IF ") _ (by decide) h1
    simpa [List.append_assoc] using h0
  have htexts : (splitStatements
        (bytes "IF " ++ c ++ bytes " THEN " ++ s ++ bytes "; END IF;")).map stmtSpan.text
      = [bytes "IF " ++ c ++ bytes " THEN " ++ s, bytes " END IF"] := by
    have h := scan_plain _ _ [] [] 1 0 1 rfl (le_refl _) hclean (by simp)
    have hp : piecesSpec (bytes " END IF;") = [bytes " END IF"] := by decide
    have hs2 : (splitStatements
          (bytes "IF " ++ c ++ bytes " THEN " ++ s ++ bytes "; END IF;")).map stmtSpan.text
        = piecesSpec (bytes "IF " ++ c ++ bytes " THEN " ++ s ++ bytes "; END IF;") := by
      simpa [splitStatements, ScanState.init] using h
    rw [hs2, hscript, piecesSpec_first _ _ hcur, hp]
  -- both spans are scripting statements
  have hif : isScriptingStatement E.ToUpper
      (TrimSpace (bytes "IF " ++ c ++ bytes " THEN " ++ s)) = true := by
    have hform : bytes "IF " ++ c ++ bytes " THEN " ++ s
        = 73 :: 70 :: 32 :: (c ++ bytes " THEN " ++ s) := by
      rw [e1]; simp
    obtain ⟨tail, ht, htail⟩ := TrimSpace_keeps_head 73 70 (c ++ bytes " THEN " ++ s)
      (by omega) (by omega)
    rw [hform, ht]
    unfold isScriptingStatement
    rw [keywordLoop_iff]
    refine ⟨[73, 70], by decide, ?_⟩
    rcases htail with rfl | ⟨tail2, rfl⟩
    · refine ⟨[], ?_, Or.inl rfl⟩
      rw [hUp.2 73 _ (by omega), hUp.2 70 _ (by omega), hUp.1]
      rfl
    · refine ⟨32 :: E.ToUpper tail2, ?_, Or.inr ⟨32, _, rfl, Or.inl rfl⟩⟩
      rw [hUp.2 73 _ (by omega), hUp.2 70 _ (by omega), hUp.2 32 _ (by omega)]
      rfl
  have hend : isScriptingStatement E.ToUpper (TrimSpace (bytes " END IF")) = true := by
    have ht : TrimSpace (bytes " END IF") = [69, 78, 68, 32, 73, 70] := by decide
    rw [ht]
    unfold isScriptingStatement
    rw [keywordLoop_iff]
    refine ⟨[69, 78, 68], by decide, 32 :: E.ToUpper [73, 70], ?_,
      Or.inr ⟨32, _, rfl, Or.inl rfl⟩⟩
    rw [hUp.2 69 _ (by omega), hUp.2 78 _ (by omega), hUp.2 68 _ (by omega),
      hUp.2 32 _ (by omega)]
    rfl
  have hall : ∀ sp ∈ splitStatements
        (bytes "IF " ++ c ++ bytes " THEN " ++ s ++ bytes "; END IF;"),
      isScriptingStatement E.ToUpper (TrimSpace sp.text) = true := by
    intro sp hsp
    have hm : sp.text ∈ [bytes "IF " ++ c ++ bytes " THEN " ++ s, bytes " END IF"] := by
      rw [← htexts]
      exact List.mem_map_of_mem _ hsp
    simp only [List.mem_cons, List.mem_singleton, List.not_mem_nil, or_false] at hm
    rcases hm with hm | hm
    · rw [hm]; exact hif
    · rw [hm]; exact hend
  have hf := foldl_lintStmt E catalog
    (splitStatements (bytes "IF " ++ c ++ bytes " THEN " ++ s ++ bytes "; END IF;"))
    { results := [], analyzed := [] }
  have hrun : lintRun E { catalog := some catalog }
      (bytes "IF " ++ c ++ bytes " THEN " ++ s ++ bytes "; END IF;")
      = (splitStatements (bytes "IF " ++ c ++ bytes " THEN " ++ s ++ bytes "; END IF;")).foldl
          (lintStmt E catalog) { results := [], analyzed := [] } := by
    unfold lintRun
    rw [hparse]
  unfold LintSQL
  rw [hrun, hf.1, hf.2]
  constructor
  · rw [List.nil_append, List.filterMap_eq_nil_iff]
    intro sp hsp
    unfold diagnosticOf
    rw [if_neg]
    rintro ⟨-, -, h⟩
    rw [hall sp hsp] at h
    cases h
  · rw [List.nil_append]
    unfold analyzedSpec
    rw [List.filter_eq_nil_iff]
    intro t ht
    obtain ⟨sp, hsp, rfl⟩ := List.mem_map.1 ht
    simp only [decide_eq_true_eq, not_and]
    intro _ _ h
    rw [hall sp hsp] at h
    cases h

theorem lintSQL_if_block_witness :
    LintSQL (asciiEngine (fun _ => none) (fun t (_ : Unit) => some t)) { catalog := some () }
      (bytes "IF " ++ bytes "x > 0" ++ bytes " THEN " ++ bytes "SELECT y FROM t"
        ++ bytes "; END IF;") = [] :=
  (lintSQL_if_block (asciiEngine (fun _ => none) (fun t (_ : Unit) => some t))
    asciiToUpper_keeps () (bytes "x > 0") (bytes "SELECT y FROM t")
    ⟨by decide, by decide, by decide, by decide, by decide, by decide⟩
    ⟨by decide, by decide, by decide, by decide, by decide, by decide⟩ rfl).1

/-! ## Catalog construction -/

theorem prefixLoop_eq (current : List (List Nat)) (parts : List (List Nat)) :
    ∀ cat : Catalog, prefixLoop current parts cat
      = { cat with
          subCatalogs := cat.subCatalogs ++ parts.map fun part => current ++ [part] } := by
  induction parts with
  | nil => intro cat; simp [prefixLoop]
  | cons part parts ih =>
    intro cat
    rw [prefixLoop, ih]
    simp [AddSubCatalog]

/-- What `BuildFromSchema` does with a table whose name has a dot, when the table
can be created: one sub-catalog per prefix component, each directly in the root
catalog, and the table in the root catalog under its full name. -/
theorem buildTable_dotted (env : CatalogEnv) (cat : Catalog) (table : Table)
    (hparts : (table.Name.splitOn 46).length ≠ 1)
    (hok : env.TableError table.Name
      (table.Columns.map fun col => { Name := col.Name, TypeName := col.Typ }) = none) :
    buildTable env cat table
      = Except.ok
          { subCatalogs := cat.subCatalogs ++
              (table.Name.splitOn 46).dropLast.map fun part => [part],
            tables := cat.tables ++
              [{ catalog := [], name := table.Name,
                 columns := table.Columns.map fun col =>
                   { Name := col.Name, TypeName := col.Typ } }] } := by
  unfold buildTable
  simp only [hparts, if_false]
  unfold AddTable
  rw [hok, prefixLoop_eq]
  simp

/-- C14 at a failing input: for the table project.dataset.table the sub-catalogs
"project" and "dataset" are both created directly in the root catalog, and the
table is added to the root catalog under its full dotted name; the claim has
"dataset" inside "project" and the table "table" inside "dataset".  A table with
an unqualified name is added to the root catalog, as the claim says. -/
theorem buildFromSchema_qualified :
    BuildFromSchema { NewCatalogError := none, TableError := fun _ _ => none }
        { Tables := [{ Name := bytes "project.dataset.table",
                       Columns := [{ Name := bytes "id", Typ := bytes "INT64" }] }] }
      = Except.ok
          { subCatalogs := [[bytes "project"], [bytes "dataset"]],
            tables := [{ catalog := [], name := bytes "project.dataset.table",
                         columns := [{ Name := bytes "id", TypeName := bytes "INT64" }] }] } ∧
    nestedCatalog { Name := bytes "project.dataset.table",
                    Columns := [{ Name := bytes "id", Typ := bytes "INT64" }] }
      = { subCatalogs := [[bytes "project"], [bytes "project", bytes "dataset"]],
          tables := [{ catalog := [bytes "project", bytes "dataset"], name := bytes "table",
                       columns := [{ Name := bytes "id", TypeName := bytes "INT64" }] }] } ∧
    BuildFromSchema { NewCatalogError := none, TableError := fun _ _ => none }
        { Tables := [{ Name := bytes "my_table",
                       Columns := [{ Name := bytes "id", Typ := bytes "INT64" }] }] }
      = Except.ok
          { subCatalogs := [],
            tables := [{ catalog := [], name := bytes "my_table",
                         columns := [{ Name := bytes "id", TypeName := bytes "INT64" }] }] } := by
  refine ⟨?_, by decide, ?_⟩
  · have h : (bytes "project.dataset.table").splitOn 46
        = [bytes "project", bytes "dataset", bytes "table"] := by decide
    simp [BuildFromSchema, tablesLoop, buildTable, h, prefixLoop, AddSubCatalog, AddTable]
    decide
  · have h : (bytes "my_table").splitOn 46 = [bytes "my_table"] := by decide
    simp [BuildFromSchema, tablesLoop, buildTable, h, AddTable]

/-! ## The segmenter never fails -/

theorem nextIs_eq (sql : List Nat) (i b : Nat) :
    nextIs sql i b = some (decide (sql[i + 1]? = some b)) := by
  unfold nextIs index
  by_cases h : i + 1 < sql.length
  · rw [if_pos h, List.getElem?_eq_getElem h]
    simp
  · rw [if_neg h, List.getElem?_eq_none (by omega)]
    simp

theorem sliceChecked_eq (sql : List Nat) (lo hi : Nat) (h1 : lo ≤ hi) (h2 : hi ≤ sql.length) :
    sliceChecked sql lo hi = some (slice sql lo hi) := by
  unfold sliceChecked
  rw [if_pos ⟨h1, h2⟩]

/-- At an index inside the input, with `start` not after it, the checked body does
not panic and does what `loopBody` does. -/
theorem loopBodyChecked_eq (sql : List Nat) (i c : Nat) (st : ScanState)
    (hc : sql[i]? = some c) (hstart : st.start ≤ i) :
    loopBodyChecked sql i st
      = some ((loopBody sql i c sql[i + 1]? st).1,
          if (loopBody sql i c sql[i + 1]? st).2 = true then i + 1 else i) := by
  have hi : i < sql.length := by
    by_contra h
    rw [List.getElem?_eq_none (by omega)] at hc
    cases hc
  have hidx : index sql i = some c := hc
  have hsl := sliceChecked_eq sql st.start i hstart (le_of_lt hi)
  unfold loopBodyChecked
  rw [hidx]
  simp only [nextIs_eq, hsl]
  by_cases h10 : c = 10
  · simp [loopBody, h10]
  by_cases hlc : st.inLineComment = true
  · simp [loopBody, h10, hlc]
  by_cases hbc : st.inBlockComment = true
  · by_cases h42 : c = 42
    · by_cases hn : sql[i + 1]? = some 47
      · simp [loopBody, hlc, hbc, h42, hn]
      · simp [loopBody, hlc, hbc, h42, hn]
    · simp [loopBody, h10, hlc, hbc, h42]
  by_cases hsq : st.inSingleQuote = true
  · by_cases h39 : c = 39
    · simp [loopBody, hlc, hbc, hsq, h39]
    · by_cases h92 : c = 92
      · simp [loopBody, hlc, hbc, hsq, h92]
      · simp [loopBody, h10, hlc, hbc, hsq, h39, h92]
  by_cases hdq : st.inDoubleQuote = true
  · by_cases h34 : c = 34
    · simp [loopBody, hlc, hbc, hsq, hdq, h34]
    · by_cases h92 : c = 92
      · simp [loopBody, hlc, hbc, hsq, hdq, h92]
      · simp [loopBody, h10, hlc, hbc, hsq, hdq, h34, h92]
  by_cases hbt : st.inBacktick = true
  · by_cases h96 : c = 96
    · simp [loopBody, hlc, hbc, hsq, hdq, hbt, h96]
    · simp [loopBody, h10, hlc, hbc, hsq, hdq, hbt, h96]
  by_cases h39 : c = 39
  · simp [loopBody, hlc, hbc, hsq, hdq, hbt, h39]
  by_cases h34 : c = 34
  · simp [loopBody, hlc, hbc, hsq, hdq, hbt, h34]
  by_cases h96 : c = 96
  · simp [loopBody, hlc, hbc, hsq, hdq, hbt, h96]
  by_cases h45 : c = 45
  · by_cases hn : sql[i + 1]? = some 45
    · simp [loopBody, hlc, hbc, hsq, hdq, hbt, h45, hn]
    · simp [loopBody, hlc, hbc, hsq, hdq, hbt, h45, hn]
  by_cases h47 : c = 47
  · by_cases hn : sql[i + 1]? = some 42
    · simp [loopBody, hlc, hbc, hsq, hdq, hbt, h47, hn]
    · simp [loopBody, hlc, hbc, hsq, hdq, hbt, h47, hn]
  by_cases h59 : c = 59
  · simp [loopBody, hlc, hbc, hsq, hdq, hbt, h59]
  · simp [loopBody, h10, hlc, hbc, hsq, hdq, hbt, h39, h34, h96, h45, h47, h59]

theorem loopBody_start_le (sql : List Nat) (i c : Nat) (next : Option Nat) (st : ScanState)
    (h : st.start ≤ i) : (loopBody sql i c next st).1.start ≤ i + 1 := by
  rcases loopBody_spans sql i c next st with ⟨_, e, _⟩ | ⟨_, _, e, _⟩
  · rw [e]; omega
  · rw [e]

/-- With enough passes allowed, the checked loop ends without a panic, in the state
`scanLoop` computes. -/
theorem scanLoopChecked_eq (sql : List Nat) :
    ∀ (fuel i : Nat) (st : ScanState), sql.length ≤ i + fuel → st.start ≤ i →
      scanLoopChecked sql fuel i st = some (scanLoop sql (sql.drop i) i st) := by
  intro fuel
  induction fuel with
  | zero =>
    intro i st hlen _
    rw [scanLoopChecked, if_neg (by omega), List.drop_eq_nil_of_le (by omega), scanLoop_nil]
  | succ fuel ih =>
    intro i st hlen hstart
    rw [scanLoopChecked]
    by_cases hi : i < sql.length
    · rw [if_pos hi]
      have hc : sql[i]? = some sql[i] := List.getElem?_eq_getElem hi
      have hdrop : sql.drop i = sql[i] :: sql.drop (i + 1) := List.drop_eq_getElem_cons hi
      have hhead : (sql.drop (i + 1)).head? = sql[i + 1]? := by
        rw [List.head?_drop]
      rw [loopBodyChecked_eq sql i sql[i] st hc hstart, hdrop, scanLoop, hhead]
      have hle := loopBody_start_le sql i sql[i] sql[i + 1]? st hstart
      rcases hb : loopBody sql i sql[i] sql[i + 1]? st with ⟨st1, skip⟩
      rw [hb] at hle
      simp only at hle
      cases skip with
      | false =>
        simp only [Bool.false_eq_true, if_false]
        exact ih (i + 1) st1 (by omega) hle
      | true =>
        simp only [if_true]
        rw [ih (i + 1 + 1) st1 (by omega) (by omega)]
        cases hr : sql.drop (i + 1) with
        | nil =>
          have : sql.drop (i + 1 + 1) = [] := by
            rw [← List.drop_drop, hr]
            rfl
          rw [this, scanLoop_nil]
        | cons d rest2 =>
          have : sql.drop (i + 1 + 1) = rest2 := by
            rw [← List.drop_drop, hr]
            rfl
          rw [this]
    · rw [if_neg hi, List.drop_eq_nil_of_le (by omega), scanLoop_nil]

theorem scan_open_single (t : List Nat) (h39 : 39 ∉ t) (h92 : 92 ∉ t) (sql : List Nat) :
    scanLoop sql (bytes "SELECT '" ++ t) 0 ScanState.init
      = { spans := [], line := 1 + t.count 10, start := 0, startLine := 1,
          inSingleQuote := true, inDoubleQuote := false, inBacktick := false,
          inLineComment := false, inBlockComment := false } := by
  have e1 : bytes "SELECT '" = [83, 69, 76, 69, 67, 84, 32, 39] := by decide
  rw [e1]
  have e3 : scanLoop sql ([83, 69, 76, 69, 67, 84, 32, 39] ++ t) 0 ScanState.init
      = scanLoop sql (t ++ []) 8
        { spans := [], line := 1, start := 0, startLine := 1,
          inSingleQuote := true, inDoubleQuote := false, inBacktick := false,
          inLineComment := false, inBlockComment := false } := by
    simp [scanLoop, loopBody, ScanState.init]
  rw [e3, scan_single_quote sql t [] 8 [] 1 0 1 false false h39 h92, scanLoop_nil]

/-- C13: `splitStatements` never fails.  On every input the loop ends and every
index and slice is in bounds (the checked function returns, with the spans of
`splitStatements`); the input is the spans ended by a semicolon followed by a
tail, and the tail is the final span unless it is empty or white space only;
an input that ends inside a quote, as SELECT, quote, t for `t` without single
quote and backslash, is returned as one span, the whole input; so are inputs
that end with a lone backslash, `-`, `/` or `*`. -/
theorem splitStatements_total :
    (∀ sql : List Nat, splitStatementsChecked sql = some (splitStatements sql)) ∧
    (∀ sql : List Nat, ∃ (spans : List stmtSpan) (tail : List Nat),
      sql = terminated spans ++ tail ∧
      ((WhiteSpaceOnly tail ∧ splitStatements sql = spans) ∨
       (¬ WhiteSpaceOnly tail ∧
          ∃ line, splitStatements sql = spans ++ [{ text := tail, startLine := line }]))) ∧
    (∀ t : List Nat, 39 ∉ t → 92 ∉ t →
      splitStatements (bytes "SELECT '" ++ t)
        = [{ text := bytes "SELECT '" ++ t, startLine := 1 }]) ∧
    splitStatementsChecked (bytes "SELECT 'a\\")
      = some [{ text := bytes "SELECT 'a\\", startLine := 1 }] ∧
    splitStatementsChecked (bytes "SELECT 1 -")
      = some [{ text := bytes "SELECT 1 -", startLine := 1 }] ∧
    splitStatementsChecked (bytes "SELECT 1 /")
      = some [{ text := bytes "SELECT 1 /", startLine := 1 }] ∧
    splitStatementsChecked (bytes "SELECT 1 /* a *")
      = some [{ text := bytes "SELECT 1 /* a *", startLine := 1 }] ∧
    splitStatementsChecked (bytes "SELECT 1; SELECT `a")
      = some [{ text := bytes "SELECT 1", startLine := 1 },
              { text := bytes " SELECT `a", startLine := 1 }] := by
  refine ⟨?_, ?_, ?_, by decide, by decide, by decide, by decide, by decide⟩
  · intro sql
    obtain ⟨h1, -⟩ := scanLoop_terminated sql
    unfold splitStatementsChecked
    rw [scanLoopChecked_eq sql sql.length 0 ScanState.init (by omega) (by simp [ScanState.init])]
    simp only [List.drop_zero]
    unfold splitStatements finish sliceFromChecked
    rw [if_pos h1]
    by_cases hlt : (scanLoop sql sql 0 ScanState.init).start < sql.length
    · by_cases ht : TrimSpace (sql.drop (scanLoop sql sql 0 ScanState.init).start) = []
      · simp [hlt, ht]
      · simp [hlt, ht]
    · simp [hlt]
  · intro sql
    obtain ⟨h1, h2⟩ := scanLoop_terminated sql
    refine ⟨(scanLoop sql sql 0 ScanState.init).spans,
      sql.drop (scanLoop sql sql 0 ScanState.init).start, ?_, ?_⟩
    · rw [h2, List.take_append_drop]
    · unfold splitStatements finish
      by_cases hlt : (scanLoop sql sql 0 ScanState.init).start < sql.length
      · by_cases ht : TrimSpace (sql.drop (scanLoop sql sql 0 ScanState.init).start) = []
        · left
          exact ⟨(TrimSpace_eq_nil_iff _).1 ht, by simp [hlt, ht]⟩
        · right
          exact ⟨fun hw => ht ((TrimSpace_eq_nil_iff _).2 hw),
            (scanLoop sql sql 0 ScanState.init).startLine, by simp [hlt, ht]⟩
      · left
        rw [List.drop_eq_nil_of_le (by omega)]
        exact ⟨WhiteSpaceOnly.nil, by simp [hlt]⟩
  · intro t h39 h92
    have hm : 83 ∈ bytes "SELECT '" ++ t := by
      have e1 : bytes "SELECT '" = [83, 69, 76, 69, 67, 84, 32, 39] := by decide
      simp [e1]
    apply splitStatements_whole _ 83 hm (by omega) (by omega) <;>
      rw [scan_open_single t h39 h92]

theorem splitStatements_total_witness :
    splitStatements (bytes "SELECT 'a;\nb")
      = [{ text := bytes "SELECT 'a;\nb", startLine := 1 }] :=
  splitStatements_total.2.2.1 (bytes "a;\nb") (by decide) (by decide)

end Lint
